import Mathlib

/-!
# Verification of the quality-tracker webhook server core

Shallow embedding of the webhook result-ingestion server
(`processWebhookData`, `validateWebhookPayload`, the REST read/delete
endpoints, the socket subscription replay and the expiry sweeper) of the
quality-tracker backend, together with proofs and refutations of the
specification claims about it.

The per-test-case server keeps three module-level structures:
`testCaseResults` (a Map from composite key `requestId-testCaseId` to the
stored result), `processedWebhooks` (a Set of `compositeKey-status` strings)
and `requestExecutions` (a Map from request id to the set of test-case ids
seen plus a first-seen timestamp).  JavaScript `Map`s and `Set`s are embedded
as association lists / lists with the insertion-order preserving operations
below; `Date.now()` instants are embedded as `Nat`.
-/

namespace QualityTracker

/-- First-match lookup in an association list (JS `Map.get`). -/
def alookup {α : Type} : List (String × α) → String → Option α
  | [], _ => none
  | kv :: t, k => if kv.1 = k then some kv.2 else alookup t k

/-- In-place upsert (JS `Map.set`): replaces the first entry with the key,
otherwise appends. -/
def aset {α : Type} : List (String × α) → String → α → List (String × α)
  | [], k, v => [(k, v)]
  | kv :: t, k, v => if kv.1 = k then (k, v) :: t else kv :: aset t k v

/-- Removal of the entry with the key (JS `Map.delete`); removes the first
occurrence. -/
def aerase {α : Type} : List (String × α) → String → List (String × α)
  | [], _ => []
  | kv :: t, k => if kv.1 = k then t else kv :: aerase t k

/-- JS `Set.add`: appends the element unless already present. -/
def sinsert (s : List String) (x : String) : List String :=
  if x ∈ s then s else s ++ [x]

/-- JS `Set.delete`: removes the (unique) occurrence of the element. -/
def serase : List String → String → List String
  | [], _ => []
  | y :: t, x => if y = x then t else y :: serase t x

/-! ## Basic lemmas about the map and set operations -/

theorem alookup_eq_none_iff {α : Type} {m : List (String × α)} {k : String} :
    alookup m k = none ↔ k ∉ m.map Prod.fst := by
  induction m with
  | nil => simp [alookup]
  | cons kv t ih =>
    by_cases h : kv.1 = k
    · simp [alookup, h]
    · simp only [alookup, if_neg h, List.map_cons, List.mem_cons, ih]
      constructor
      · rintro hk (h1 | h2)
        · exact h h1.symm
        · exact hk h2
      · intro hk
        exact fun h2 => hk (Or.inr h2)

theorem alookup_aset_self {α : Type} (m : List (String × α)) (k : String) (v : α) :
    alookup (aset m k v) k = some v := by
  induction m with
  | nil => simp [aset, alookup]
  | cons kv t ih =>
    by_cases h : kv.1 = k
    · simp [aset, h, alookup]
    · simp [aset, h, alookup, ih]

theorem alookup_aset_ne {α : Type} (m : List (String × α)) (k k' : String) (v : α)
    (h : k' ≠ k) : alookup (aset m k v) k' = alookup m k' := by
  induction m with
  | nil =>
    simp only [aset, alookup]
    rw [if_neg (fun hh : k = k' => h hh.symm)]
  | cons kv t ih =>
    by_cases hk : kv.1 = k
    · subst hk
      simp only [aset, if_pos rfl, alookup]
      rw [if_neg (fun hh : kv.1 = k' => h hh.symm),
        if_neg (fun hh : kv.1 = k' => h hh.symm)]
    · simp only [aset, if_neg hk, alookup]
      by_cases hk' : kv.1 = k'
      · rw [if_pos hk', if_pos hk']
      · rw [if_neg hk', if_neg hk', ih]

theorem alookup_aerase_ne {α : Type} (m : List (String × α)) (k k' : String)
    (h : k' ≠ k) : alookup (aerase m k) k' = alookup m k' := by
  induction m with
  | nil => simp [aerase]
  | cons kv t ih =>
    by_cases hk : kv.1 = k
    · subst hk
      simp only [aerase, if_pos rfl, if_true, alookup]
      rw [if_neg (fun hh : kv.1 = k' => h hh.symm)]
    · simp only [aerase, if_neg hk, alookup]
      by_cases hk' : kv.1 = k'
      · rw [if_pos hk', if_pos hk']
      · rw [if_neg hk', if_neg hk', ih]

theorem map_fst_aerase_sublist {α : Type} (m : List (String × α)) (k : String) :
    ((aerase m k).map Prod.fst).Sublist (m.map Prod.fst) := by
  induction m with
  | nil => simp [aerase]
  | cons kv t ih =>
    by_cases h : kv.1 = k
    · simp only [aerase, if_pos h, List.map_cons]
      exact List.sublist_cons_of_sublist _ (List.Sublist.refl _)
    · simp only [aerase, if_neg h, List.map_cons]
      exact List.Sublist.cons₂ _ ih

theorem alookup_aerase_self {α : Type} (m : List (String × α)) (k : String)
    (hnd : (m.map Prod.fst).Nodup) : alookup (aerase m k) k = none := by
  induction m with
  | nil => simp [aerase, alookup]
  | cons kv t ih =>
    simp only [List.map_cons, List.nodup_cons] at hnd
    by_cases h : kv.1 = k
    · simp only [aerase, if_pos h]
      rw [alookup_eq_none_iff]
      rw [h] at hnd
      exact hnd.1
    · simp only [aerase, if_neg h, alookup, if_neg h]
      exact ih hnd.2

theorem alookup_of_mem_nodup {α : Type} {m : List (String × α)} {k : String} {v : α}
    (hm : (k, v) ∈ m) (hnd : (m.map Prod.fst).Nodup) : alookup m k = some v := by
  induction m with
  | nil => simp at hm
  | cons kv t ih =>
    simp only [List.map_cons, List.nodup_cons] at hnd
    rcases List.mem_cons.mp hm with h | h
    · subst h
      simp [alookup]
    · have hne : kv.1 ≠ k := by
        intro hc
        exact hnd.1 (by
          rw [hc]
          exact List.mem_map.mpr ⟨(k, v), h, rfl⟩)
      simp only [alookup, if_neg hne]
      exact ih h hnd.2

theorem alookup_none_of_aerase {α : Type} {m : List (String × α)} {k : String}
    (h : alookup m k = none) (k' : String) : alookup (aerase m k') k = none := by
  rw [alookup_eq_none_iff] at h ⊢
  intro hc
  exact h ((map_fst_aerase_sublist m k').subset hc)

theorem mem_sinsert_iff {s : List String} {x y : String} :
    y ∈ sinsert s x ↔ y ∈ s ∨ y = x := by
  by_cases h : x ∈ s
  · simp only [sinsert, if_pos h]
    constructor
    · exact Or.inl
    · rintro (hy | rfl)
      · exact hy
      · exact h
  · simp [sinsert, if_neg h]

theorem mem_of_mem_serase {s : List String} {x y : String}
    (h : y ∈ serase s x) : y ∈ s := by
  induction s with
  | nil => simp [serase] at h
  | cons z t ih =>
    by_cases hz : z = x
    · simp only [serase, if_pos hz] at h
      exact List.mem_cons_of_mem _ h
    · simp only [serase, if_neg hz] at h
      rcases List.mem_cons.mp h with h | h
      · exact h ▸ List.mem_cons_self _ _
      · exact List.mem_cons_of_mem _ (ih h)

theorem not_mem_serase_self {s : List String} {x : String}
    (hnd : s.Nodup) : x ∉ serase s x := by
  induction s with
  | nil => simp [serase]
  | cons z t ih =>
    simp only [List.nodup_cons] at hnd
    by_cases hz : z = x
    · subst hz
      simp only [serase, if_pos rfl]
      exact hnd.1
    · simp only [serase, if_neg hz]
      intro hmem
      rcases List.mem_cons.mp hmem with h | h
      · exact hz h.symm
      · exact ih hnd.2 h

theorem not_mem_serase_of_not_mem {s : List String} {x y : String}
    (h : x ∉ s) : x ∉ serase s y :=
  fun hc => h (mem_of_mem_serase hc)

theorem serase_sublist (s : List String) (x : String) : (serase s x).Sublist s := by
  induction s with
  | nil => simp [serase]
  | cons z t ih =>
    by_cases hz : z = x
    · simp only [serase, if_pos hz]
      exact List.sublist_cons_of_sublist _ (List.Sublist.refl _)
    · simp only [serase, if_neg hz]
      exact List.Sublist.cons₂ _ ih

theorem nodup_serase {s : List String} (x : String) (hnd : s.Nodup) :
    (serase s x).Nodup :=
  (serase_sublist s x).nodup hnd

theorem map_fst_aset {α : Type} (m : List (String × α)) (k : String) (v : α) :
    (aset m k v).map Prod.fst =
      if k ∈ m.map Prod.fst then m.map Prod.fst else m.map Prod.fst ++ [k] := by
  induction m with
  | nil => simp [aset]
  | cons kv t ih =>
    by_cases h : kv.1 = k
    · simp [aset, h, List.map_cons]
    · have hne : ¬(k = kv.1) := fun hh => h hh.symm
      by_cases hm : k ∈ t.map Prod.fst
      · simp [aset, if_neg h, List.map_cons, ih, hm, hne]
      · simp [aset, if_neg h, List.map_cons, ih, hm, hne]

theorem map_fst_aset_nodup {α : Type} (m : List (String × α)) (k : String) (v : α)
    (hnd : (m.map Prod.fst).Nodup) : ((aset m k v).map Prod.fst).Nodup := by
  rw [map_fst_aset]
  by_cases h : k ∈ m.map Prod.fst
  · simpa [h] using hnd
  · simp only [if_neg h]
    exact List.Nodup.append hnd (List.nodup_singleton k) (by
      intro a ha hb
      simp only [List.mem_singleton] at hb
      exact h (hb ▸ ha))

theorem map_fst_aerase_nodup {α : Type} (m : List (String × α)) (k : String)
    (hnd : (m.map Prod.fst).Nodup) : ((aerase m k).map Prod.fst).Nodup :=
  (map_fst_aerase_sublist m k).nodup hnd

theorem nodup_sinsert {s : List String} (x : String) (hnd : s.Nodup) :
    (sinsert s x).Nodup := by
  by_cases h : x ∈ s
  · simpa [sinsert, h] using hnd
  · simp only [sinsert, if_neg h]
    exact List.Nodup.append hnd (List.nodup_singleton x) (by
      intro a ha hb
      simp only [List.mem_singleton] at hb
      exact h (hb ▸ ha))

/-! ## Data model

One element of the webhook payload's `results` array.  A JS field that is
absent or empty (falsy for the validator) is the empty string; the optional
structured `failure` object is `Option String` (only its presence is ever
inspected by the server). -/

structure IncomingResult where
  id : String
  status : String
  failure : Option String
  duration : Option Nat
  logs : Option String
deriving DecidableEq

/-- The JSON body of a webhook delivery.  `results := none` stands for a
missing / non-array `results` field. -/
structure WebhookPayload where
  requestId : String
  timestamp : String
  results : Option (List IncomingResult)
deriving DecidableEq

/-- One entry of `testCaseResults`: the stored result for a composite key. -/
structure StoredResult where
  requestId : String
  testCaseId : String
  testCase : IncomingResult
  receivedAt : Nat
  compositeKey : String
  ttl : Nat
deriving DecidableEq

/-- One entry of `requestExecutions`: the set of test-case ids seen for a
request id, plus the first-seen timestamp. -/
structure ExecutionEntry where
  testCaseIds : List String
  timestamp : Nat
deriving DecidableEq

/-- The three module-level in-memory structures of the server. -/
structure ServerState where
  testCaseResults : List (String × StoredResult)
  processedWebhooks : List String
  requestExecutions : List (String × ExecutionEntry)
deriving DecidableEq

/-- The state at process start: all three structures empty. -/
def initialState : ServerState := ⟨[], [], []⟩

/-! ## Validator -/

/-- The defects contributed by the `results` field: must be an array with
exactly one entry carrying a test-case id. -/
def resultsErrors : Option (List IncomingResult) → List String
  | none => ["results must be an array"]
  | some rs =>
    if rs.length ≠ 1 then ["exactly one test case result expected per webhook"]
    else match rs with
      | r :: _ => if r.id = "" then ["test case id is required in results"] else []
      | [] => []

/-- `validateWebhookPayload`: returns the `valid` flag together with the list
of human-readable defects, exactly as the source computes them. -/
def validateWebhookPayload (payload : Option WebhookPayload) : Bool × List String :=
  match payload with
  | none => (false, ["Payload is required"])
  | some p =>
    let e1 := if p.requestId = "" then
        ["requestId is required for proper request isolation"] else []
    let e2 := if p.timestamp = "" then ["timestamp is required"] else []
    let e3 := resultsErrors p.results
    let errors := e1 ++ e2 ++ e3
    (errors.isEmpty, errors)

/-! ## Reconciliation (`processWebhookData`) -/

/-- `parseInt(process.env.RESULT_TTL) || 3600000`: the configured TTL
duration, with the one-hour fallback when the variable is unset,
unparseable or zero. -/
def effectiveTtl (resultTtlEnv : Option Nat) : Nat :=
  match resultTtlEnv with
  | none => 3600000
  | some n => if n = 0 then 3600000 else n

/-- The execution-tracking step of `processWebhookData`: create the
execution entry on first use, then insert the test-case id into its set. -/
def trackExecution (now : Nat) (requestId testCaseId : String)
    (execs : List (String × ExecutionEntry)) : List (String × ExecutionEntry) :=
  let execs1 := match alookup execs requestId with
    | none => aset execs requestId { testCaseIds := [], timestamp := now }
    | some _ => execs
  match alookup execs1 requestId with
  | some e => aset execs1 requestId { e with testCaseIds := sinsert e.testCaseIds testCaseId }
  | none => execs1

/-- The reconciliation outcome returned by `processWebhookData`: either the
duplicate descriptor `{ message, compositeKey, duplicate: true }` or the
processed descriptor
`{ message, compositeKey, testCaseId, status, enhanced, broadcastSent }`. -/
inductive ProcessResult where
  | dup (message compositeKey : String)
  | ok (message compositeKey testCaseId status : String) (enhanced broadcastSent : Bool)
deriving DecidableEq

/-- The `test-case-result` frame emitted to the `request-<id>` room. -/
structure BroadcastMessage where
  channel : String
  requestId : String
  testCaseId : String
  testCase : IncomingResult
  timestamp : Nat
  enhanced : Bool
deriving DecidableEq

/-- The `isEnhancedUpdate` test of `processWebhookData`: an existing stored
result with the identical status that carries no failure object, while the
incoming result does carry one. -/
def computeEnhanced (s : ServerState) (compositeKey : String)
    (testCase : IncomingResult) : Bool :=
  match alookup s.testCaseResults compositeKey with
  | some er => decide (er.testCase.status = testCase.status ∧
      er.testCase.failure = none ∧ testCase.failure ≠ none)
  | none => false

/-- The `isDuplicate` test of `processWebhookData`: the per-status processed
marker is present and the delivery is not an enhanced update. -/
def computeDuplicate (s : ServerState) (statusKey : String) (enhanced : Bool) : Bool :=
  decide (statusKey ∈ s.processedWebhooks) && !enhanced

/-- The body of `processWebhookData` after validation has succeeded:
execution tracking, the enhanced/duplicate decision, the store update, the
processed-webhooks marker and the room broadcast. -/
def processValidated (env : Option Nat) (now : Nat) (requestId : String)
    (testCase : IncomingResult) (s : ServerState) :
    ServerState × ProcessResult × Option BroadcastMessage :=
  let testCaseId := testCase.id
  let compositeKey := requestId ++ "-" ++ testCaseId
  let execs := trackExecution now requestId testCaseId s.requestExecutions
  let statusKey := compositeKey ++ "-" ++ testCase.status
  let isEnhancedUpdate : Bool := computeEnhanced s compositeKey testCase
  let isDuplicate : Bool := computeDuplicate s statusKey isEnhancedUpdate
  if isDuplicate then
    ({ s with requestExecutions := execs },
     ProcessResult.dup "Test case webhook already processed" compositeKey, none)
  else
    let stored : StoredResult :=
      { requestId := requestId, testCaseId := testCaseId, testCase := testCase,
        receivedAt := now, compositeKey := compositeKey, ttl := now + effectiveTtl env }
    let processed := if isEnhancedUpdate then s.processedWebhooks
      else sinsert s.processedWebhooks statusKey
    ({ testCaseResults := aset s.testCaseResults compositeKey stored,
       processedWebhooks := processed, requestExecutions := execs },
     ProcessResult.ok
       (if isEnhancedUpdate then "Test case webhook enhanced with failure details"
        else "Test case webhook processed successfully")
       compositeKey testCaseId testCase.status isEnhancedUpdate true,
     some { channel := "request-" ++ requestId, requestId := requestId,
            testCaseId := testCaseId, testCase := testCase, timestamp := now,
            enhanced := isEnhancedUpdate })

/-- `processWebhookData`: validation followed by the processing above.  A
validation failure is the thrown `Invalid webhook payload` error, carrying
the defect list.  (The `_ => Except.error` fallbacks are unreachable: a
valid payload always destructures.) -/
def processWebhookData (env : Option Nat) (now : Nat) (payload : Option WebhookPayload)
    (s : ServerState) :
    Except (List String) (ServerState × ProcessResult × Option BroadcastMessage) :=
  let validation := validateWebhookPayload payload
  if validation.1 then
    match payload with
    | some p =>
      match p.results with
      | some (testCase :: _) =>
        Except.ok (processValidated env now p.requestId testCase s)
      | _ => Except.error ["results must be an array"]
    | none => Except.error ["Payload is required"]
  else Except.error validation.2

/-! ## Ingestion endpoint (`POST /api/webhook/test-results`) -/

/-- The JSON body answered by the ingestion endpoint.  Each constructor
carries exactly the fields the corresponding JS object literal spreads. -/
inductive PostResponse where
  | okProcessed (message compositeKey testCaseId status : String)
      (enhanced broadcastSent : Bool)
  | okDuplicate (message compositeKey : String)
  | badRequest (message : String)
deriving DecidableEq

/-- The HTTP status code of each response shape. -/
def postStatusCode : PostResponse → Nat
  | .okProcessed _ _ _ _ _ _ => 200
  | .okDuplicate _ _ => 200
  | .badRequest _ => 400

/-- The field names present in the serialized response body (the JS object
spread), used to state which keys a client actually receives. -/
def responseFields : PostResponse → List String
  | .okProcessed _ _ _ _ _ _ =>
      ["success", "message", "compositeKey", "testCaseId", "status",
       "enhanced", "broadcastSent", "receivedAt"]
  | .okDuplicate _ _ => ["success", "message", "compositeKey", "duplicate", "receivedAt"]
  | .badRequest _ => ["success", "error", "message"]

/-- The ingestion endpoint handler: 200 with the processing result on
success, 400 with the joined error message when `processWebhookData`
throws (the development-mode message text). -/
def postWebhook (env : Option Nat) (now : Nat) (payload : Option WebhookPayload)
    (s : ServerState) : ServerState × PostResponse × Option BroadcastMessage :=
  match processWebhookData env now payload s with
  | Except.error errs =>
      (s, PostResponse.badRequest ("Invalid webhook payload: " ++ String.intercalate ", " errs),
       none)
  | Except.ok (s', ProcessResult.dup m k, b) => (s', PostResponse.okDuplicate m k, b)
  | Except.ok (s', ProcessResult.ok m k tc st e bs, b) =>
      (s', PostResponse.okProcessed m k tc st e bs, b)

/-! ## Read endpoints -/

/-- Whether a stored entry counts as expired on the read/delete paths:
`result.ttl && result.ttl < Date.now()`. -/
def isExpired (now ttl : Nat) : Prop := ttl ≠ 0 ∧ ttl < now

instance (now ttl : Nat) : Decidable (isExpired now ttl) := by
  unfold isExpired
  infer_instance

/-- Response of `GET /api/test-results/request/:requestId/testcase/:testCaseId`. -/
inductive GetSingleResponse where
  | notFound (error : String)
  | found (stored : StoredResult)
deriving DecidableEq

/-- The single-result read endpoint: 404 when absent, lazy delete plus 404
when expired, 200 with the stored entry otherwise. -/
def getTestCaseResult (now : Nat) (requestId testCaseId : String) (s : ServerState) :
    ServerState × Nat × GetSingleResponse :=
  let compositeKey := requestId ++ "-" ++ testCaseId
  match alookup s.testCaseResults compositeKey with
  | none => (s, 404, GetSingleResponse.notFound "Test case result not found")
  | some result =>
    if isExpired now result.ttl then
      ({ s with testCaseResults := aerase s.testCaseResults compositeKey }, 404,
       GetSingleResponse.notFound "Test case result has expired")
    else (s, 200, GetSingleResponse.found result)

/-- One element of the list returned by the list-by-execution read. -/
structure ListedResult where
  testCaseId : String
  compositeKey : String
  stored : StoredResult
deriving DecidableEq

/-- Response of `GET /api/test-results/request/:requestId`. -/
inductive GetListResponse where
  | notFound (error : String)
  | okList (testCaseCount totalExpected : Nat) (results : List ListedResult)
deriving DecidableEq

/-- The list-by-execution read endpoint: walks the execution's test-case-id
set, collects non-expired stored results, lazily deletes the expired ones,
and reports `testCaseCount` with `totalExpected` (the size of the set). -/
def getRequestResults (now : Nat) (requestId : String) (s : ServerState) :
    ServerState × Nat × GetListResponse :=
  match alookup s.requestExecutions requestId with
  | none => (s, 404, GetListResponse.notFound "No execution found for request")
  | some execution =>
    let collected := execution.testCaseIds.foldl
      (fun (acc : List ListedResult × List String) tc =>
        let k := requestId ++ "-" ++ tc
        match alookup s.testCaseResults k with
        | none => acc
        | some r =>
          if isExpired now r.ttl then (acc.1, acc.2 ++ [k])
          else (acc.1 ++ [⟨tc, k, r⟩], acc.2)) ([], [])
    let s1 := { s with
      testCaseResults := collected.2.foldl (fun m k => aerase m k) s.testCaseResults }
    if collected.1.length = 0 then
      (s1, 404, GetListResponse.notFound "No valid test case results found")
    else
      (s1, 200, GetListResponse.okList collected.1.length execution.testCaseIds.length
        collected.1)

/-! ## Delete endpoint (`DELETE /api/test-results/request/:requestId`) -/

/-- The four statuses whose `processedWebhooks` markers the delete endpoint
clears. -/
def standardStatuses : List String := ["Not Started", "Running", "Passed", "Failed"]

/-- One iteration of the delete endpoint's loop: delete the stored result
for the composite key (counting it when it existed) and the per-status
processed markers. -/
def deleteStep (requestId : String)
    (acc : List (String × StoredResult) × List String × Nat) (tc : String) :
    List (String × StoredResult) × List String × Nat :=
  let k := requestId ++ "-" ++ tc
  let results := acc.1
  let processed := acc.2.1
  let cnt := acc.2.2
  let resultsCnt : List (String × StoredResult) × Nat :=
    match alookup results k with
    | some _ => (aerase results k, cnt + 1)
    | none => (results, cnt)
  let processed1 := standardStatuses.foldl
    (fun pr st => serase pr (k ++ "-" ++ st)) processed
  (resultsCnt.1, processed1, resultsCnt.2)

/-- The delete endpoint: for each test-case id of the execution, delete the
stored result (counting the ones that existed) and the per-status processed
markers, then drop the execution entry. -/
def deleteRequestResults (requestId : String) (s : ServerState) : ServerState × Nat :=
  match alookup s.requestExecutions requestId with
  | none => (s, 0)
  | some execution =>
    let folded := execution.testCaseIds.foldl (deleteStep requestId)
      (s.testCaseResults, s.processedWebhooks, 0)
    ({ testCaseResults := folded.1, processedWebhooks := folded.2.1,
       requestExecutions := aerase s.requestExecutions requestId }, folded.2.2)

/-! ## Subscription replay (`socket.on('subscribe-request')`) -/

/-- The `test-case-result` frame replayed on subscription; unlike the live
broadcast it carries no `enhanced` flag. -/
structure ReplayMessage where
  requestId : String
  testCaseId : String
  testCase : IncomingResult
  timestamp : Nat
deriving DecidableEq

/-- The replay performed when a client subscribes to a request's room:
for each test-case id of the execution, emit the stored result when it
exists and `!ttl || ttl > Date.now()`. -/
def subscribeRequestReplay (now : Nat) (requestId : String) (s : ServerState) :
    List ReplayMessage :=
  match alookup s.requestExecutions requestId with
  | none => []
  | some execution =>
    execution.testCaseIds.foldl (fun acc tc =>
      let k := requestId ++ "-" ++ tc
      match alookup s.testCaseResults k with
      | none => acc
      | some er =>
        if er.ttl = 0 ∨ now < er.ttl then
          acc ++ [⟨requestId, tc, er.testCase, er.receivedAt⟩]
        else acc) []

/-! ## Operation traces -/

/-- One unit of work touching the shared state: a webhook delivery, the two
reads (with their lazy expiry deletes) or the delete endpoint. -/
inductive Op where
  | webhook (now : Nat) (payload : Option WebhookPayload)
  | readSingle (now : Nat) (requestId testCaseId : String)
  | readList (now : Nat) (requestId : String)
  | clearRequest (requestId : String)
deriving DecidableEq

/-- The state transition performed by one operation. -/
def applyOp (env : Option Nat) (s : ServerState) : Op → ServerState
  | .webhook now p =>
    match processWebhookData env now p s with
    | Except.error _ => s
    | Except.ok (s', _, _) => s'
  | .readSingle now r tc => (getTestCaseResult now r tc s).1
  | .readList now r => (getRequestResults now r s).1
  | .clearRequest r => (deleteRequestResults r s).1

/-- The state reached from process start by a sequence of operations. -/
def runOps (env : Option Nat) (ops : List Op) : ServerState :=
  ops.foldl (applyOp env) initialState

/-! ## The expiry sweeper (`cleanupExpiredResults` of `webhook-server.js`)

The sweeper operates on the structures of the `webhook-server.js` variant:
`webhookResults` (request id ↦ stored data, of which only the `ttl` field is
read), `processedWebhooks` (a Set of processed webhook ids = request ids) and
`activeRequests` (requirement id ↦ Set of request ids). -/

structure SweepState where
  webhookResults : List (String × Nat)
  processedWebhooks : List String
  activeRequests : List (String × List String)
deriving DecidableEq

/-- The inner loop of the sweeper: scan `activeRequests` for the first set
containing the request id, remove the id from it (dropping the whole entry
when the set becomes empty) and stop. -/
def removeFromFirstExecution : List (String × List String) → String →
    List (String × List String)
  | [], _ => []
  | (reqId, ids) :: t, x =>
    if x ∈ ids then
      let ids1 := serase ids x
      if ids1.length = 0 then t else (reqId, ids1) :: t
    else (reqId, ids) :: removeFromFirstExecution t x

/-- Processing of one `webhookResults` entry by the sweeper: when expired,
delete it from the store, from `processedWebhooks` and from the first
containing `activeRequests` set. -/
def sweepEntry (now : Nat) (s : SweepState) (kv : String × Nat) : SweepState :=
  if isExpired now kv.2 then
    { webhookResults := aerase s.webhookResults kv.1,
      processedWebhooks := serase s.processedWebhooks kv.1,
      activeRequests := removeFromFirstExecution s.activeRequests kv.1 }
  else s

/-- `cleanupExpiredResults`: one sweeper run over all stored entries. -/
def cleanupExpiredResults (now : Nat) (s : SweepState) : SweepState :=
  s.webhookResults.foldl (sweepEntry now) s

/-! ## Concrete scenario builders and projections used in the statements -/

/-- A single results-array entry with the given id, status and failure. -/
def mkResult (tc st : String) (f : Option String) : IncomingResult :=
  { id := tc, status := st, failure := f, duration := none, logs := none }

/-- A webhook payload with the given request id and exactly one result. -/
def mkPayload (r tc st : String) (f : Option String) : WebhookPayload :=
  { requestId := r, timestamp := "2024-01-01T00:00:00Z",
    results := some [mkResult tc st f] }

/-- The reconciliation outcome of a processing call, `none` on a validation
error. -/
def processOutcome
    (x : Except (List String) (ServerState × ProcessResult × Option BroadcastMessage)) :
    Option ProcessResult :=
  match x with
  | Except.ok (_, pr, _) => some pr
  | Except.error _ => none

/-- The post-state of a processing call, `none` on a validation error. -/
def processState
    (x : Except (List String) (ServerState × ProcessResult × Option BroadcastMessage)) :
    Option ServerState :=
  match x with
  | Except.ok (s, _, _) => some s
  | Except.error _ => none

/-- The `testCaseCount` and `totalExpected` counters of a list read. -/
def listCounts : GetListResponse → Option (Nat × Nat)
  | GetListResponse.okList c t _ => some (c, t)
  | GetListResponse.notFound _ => none

/-! ## Characterization of the execution-tracking step -/

theorem trackExecution_lookup_self (now : Nat) (r tcid : String)
    (m : List (String × ExecutionEntry)) :
    ∃ e : ExecutionEntry,
      alookup (trackExecution now r tcid m) r = some e ∧
      tcid ∈ e.testCaseIds ∧
      (∀ x ∈ e.testCaseIds, x = tcid ∨
        ∃ e0, alookup m r = some e0 ∧ x ∈ e0.testCaseIds) := by
  unfold trackExecution
  cases h : alookup m r with
  | none =>
    simp only [h, alookup_aset_self]
    refine ⟨_, rfl, ?_, ?_⟩
    · show tcid ∈ sinsert [] tcid
      exact mem_sinsert_iff.mpr (Or.inr rfl)
    · intro x hx
      have hx2 : x ∈ sinsert [] tcid := hx
      rcases mem_sinsert_iff.mp hx2 with hx3 | hx3
      · simp at hx3
      · exact Or.inl hx3
  | some e0 =>
    simp only [h]
    refine ⟨_, alookup_aset_self _ r _, ?_, ?_⟩
    · show tcid ∈ sinsert e0.testCaseIds tcid
      exact mem_sinsert_iff.mpr (Or.inr rfl)
    · intro x hx
      have hx2 : x ∈ sinsert e0.testCaseIds tcid := hx
      rcases mem_sinsert_iff.mp hx2 with hx3 | hx3
      · exact Or.inr ⟨e0, rfl, hx3⟩
      · exact Or.inl hx3

theorem trackExecution_lookup_ne (now : Nat) (r tcid r' : String)
    (m : List (String × ExecutionEntry)) (h : r' ≠ r) :
    alookup (trackExecution now r tcid m) r' = alookup m r' := by
  unfold trackExecution
  cases h0 : alookup m r with
  | none =>
    have h1 : alookup (aset m r { testCaseIds := [], timestamp := now }) r =
        some { testCaseIds := [], timestamp := now } := alookup_aset_self m r _
    simp only [h0, h1]
    rw [alookup_aset_ne _ _ _ _ h, alookup_aset_ne _ _ _ _ h]
  | some e0 =>
    simp only [h0]
    rw [alookup_aset_ne _ _ _ _ h]

theorem trackExecution_nodup (now : Nat) (r tcid : String)
    (m : List (String × ExecutionEntry)) (hnd : (m.map Prod.fst).Nodup) :
    ((trackExecution now r tcid m).map Prod.fst).Nodup := by
  unfold trackExecution
  cases h0 : alookup m r with
  | none =>
    simp only [h0, alookup_aset_self]
    exact map_fst_aset_nodup _ r _ (map_fst_aset_nodup m r _ hnd)
  | some e0 =>
    simp only [h0]
    exact map_fst_aset_nodup m r _ hnd

theorem trackExecution_member_cases (now : Nat) (r tcid r' tc' : String)
    (m : List (String × ExecutionEntry)) (e' : ExecutionEntry)
    (hl : alookup (trackExecution now r tcid m) r' = some e')
    (hm : tc' ∈ e'.testCaseIds) :
    (r' = r ∧ tc' = tcid) ∨ (∃ e0, alookup m r' = some e0 ∧ tc' ∈ e0.testCaseIds) := by
  by_cases hr : r' = r
  · subst hr
    obtain ⟨e, he, _, hall⟩ := trackExecution_lookup_self now r' tcid m
    rw [hl] at he
    cases he
    rcases hall tc' hm with h | h
    · exact Or.inl ⟨rfl, h⟩
    · exact Or.inr h
  · rw [trackExecution_lookup_ne now r tcid r' m hr] at hl
    exact Or.inr ⟨e', hl, hm⟩

/-! ## Reduction lemma for the validated processing path -/

theorem processWebhookData_valid_eq (env : Option Nat) (now : Nat)
    (p : WebhookPayload) (tc : IncomingResult) (rest : List IncomingResult)
    (s : ServerState) (hval : (validateWebhookPayload (some p)).1 = true)
    (hres : p.results = some (tc :: rest)) :
    processWebhookData env now (some p) s =
      Except.ok (processValidated env now p.requestId tc s) := by
  unfold processWebhookData
  simp only [hval, if_true, hres]

/-! ## Claim theorems -/

/-- **C1**: for every validated incoming result whose composite key already
has a stored entry with the identical status, where the stored entry carries
no failure detail and the incoming one does, `processWebhookData` yields the
enrichment outcome: the stored entry is overwritten by the incoming result,
the response reports `enhanced = true`, and the update is broadcast to the
execution's `request-` channel tagged `enhanced = true`. -/
theorem claim1_enrichment_overwrites_and_broadcasts
    (env : Option Nat) (now : Nat) (p : WebhookPayload) (tc : IncomingResult)
    (s : ServerState) (er : StoredResult)
    (hval : (validateWebhookPayload (some p)).1 = true)
    (hres : p.results = some [tc])
    (hex : alookup s.testCaseResults (p.requestId ++ "-" ++ tc.id) = some er)
    (hst : er.testCase.status = tc.status)
    (hnof : er.testCase.failure = none)
    (hf : tc.failure ≠ none) :
    ∃ s' : ServerState,
      processWebhookData env now (some p) s = Except.ok (s',
        ProcessResult.ok "Test case webhook enhanced with failure details"
          (p.requestId ++ "-" ++ tc.id) tc.id tc.status true true,
        some { channel := "request-" ++ p.requestId, requestId := p.requestId,
               testCaseId := tc.id, testCase := tc, timestamp := now,
               enhanced := true }) ∧
      alookup s'.testCaseResults (p.requestId ++ "-" ++ tc.id) = some
        { requestId := p.requestId, testCaseId := tc.id, testCase := tc,
          receivedAt := now, compositeKey := p.requestId ++ "-" ++ tc.id,
          ttl := now + effectiveTtl env } := by
  have hred := processWebhookData_valid_eq env now p tc [] s hval hres
  have henh : computeEnhanced s (p.requestId ++ "-" ++ tc.id) tc = true := by
    unfold computeEnhanced
    rw [hex]
    simp [hst, hnof, hf]
  have hdup : computeDuplicate s ((p.requestId ++ "-" ++ tc.id) ++ "-" ++ tc.status)
      true = false := by
    unfold computeDuplicate
    simp
  refine ⟨{ testCaseResults := aset s.testCaseResults (p.requestId ++ "-" ++ tc.id)
              { requestId := p.requestId, testCaseId := tc.id, testCase := tc,
                receivedAt := now, compositeKey := p.requestId ++ "-" ++ tc.id,
                ttl := now + effectiveTtl env },
            processedWebhooks := s.processedWebhooks,
            requestExecutions := trackExecution now p.requestId tc.id s.requestExecutions },
    ?_, ?_⟩
  · rw [hred]
    unfold processValidated
    simp only [henh, hdup, Bool.false_eq_true, if_false, if_true]
  · exact alookup_aset_self _ _ _

/-- The state after one successful non-failure delivery for key `R-T`,
used to instantiate the enrichment hypotheses of C1. -/
def enrichBase : ServerState :=
  (postWebhook none 0 (some (mkPayload "R" "T" "Failed" none)) initialState).1

/-- Witness for C1 at a concrete enrichment delivery. -/
theorem claim1_witness :
    ∃ s' : ServerState,
      processWebhookData none 5 (some (mkPayload "R" "T" "Failed" (some "assertion")))
          enrichBase = Except.ok (s',
        ProcessResult.ok "Test case webhook enhanced with failure details"
          ((mkPayload "R" "T" "Failed" (some "assertion")).requestId ++ "-" ++
            (mkResult "T" "Failed" (some "assertion")).id)
          (mkResult "T" "Failed" (some "assertion")).id
          (mkResult "T" "Failed" (some "assertion")).status true true,
        some { channel := "request-" ++ (mkPayload "R" "T" "Failed" (some "assertion")).requestId,
               requestId := (mkPayload "R" "T" "Failed" (some "assertion")).requestId,
               testCaseId := (mkResult "T" "Failed" (some "assertion")).id,
               testCase := mkResult "T" "Failed" (some "assertion"), timestamp := 5,
               enhanced := true }) ∧
      alookup s'.testCaseResults ((mkPayload "R" "T" "Failed" (some "assertion")).requestId
          ++ "-" ++ (mkResult "T" "Failed" (some "assertion")).id) = some
        { requestId := (mkPayload "R" "T" "Failed" (some "assertion")).requestId,
          testCaseId := (mkResult "T" "Failed" (some "assertion")).id,
          testCase := mkResult "T" "Failed" (some "assertion"), receivedAt := 5,
          compositeKey := (mkPayload "R" "T" "Failed" (some "assertion")).requestId
            ++ "-" ++ (mkResult "T" "Failed" (some "assertion")).id,
          ttl := 5 + effectiveTtl none } :=
  claim1_enrichment_overwrites_and_broadcasts none 5
    (mkPayload "R" "T" "Failed" (some "assertion"))
    (mkResult "T" "Failed" (some "assertion")) enrichBase
    { requestId := "R", testCaseId := "T", testCase := mkResult "T" "Failed" none,
      receivedAt := 0, compositeKey := "R-T", ttl := 0 + 3600000 }
    (by decide) (by decide) (by decide) (by decide) (by decide) (by decide)

/-- Two deliveries for key `r-tc`: `Passed` then `Failed`.  Both per-status
markers are now in `processedWebhooks` while the stored entry says `Failed`. -/
def flipFlopState : ServerState :=
  runOps none [Op.webhook 0 (some (mkPayload "r" "tc" "Passed" none)),
               Op.webhook 1 (some (mkPayload "r" "tc" "Failed" none))]

/-- **C2 counterexample**: after `Passed` then `Failed` for the same key, a
third delivery with status `Passed` — different from the stored `Failed`
entry — is reported as a duplicate and the stored entry is left unchanged,
because the `Passed` marker from earlier in the process lifetime is still in
`processedWebhooks`.  This refutes the claim that such a delivery is always
treated as new regardless of earlier statuses. -/
theorem claim2_counterexample :
    (alookup flipFlopState.testCaseResults "r-tc").map
        (fun er => er.testCase.status) = some "Failed" ∧
    processOutcome (processWebhookData none 2
        (some (mkPayload "r" "tc" "Passed" none)) flipFlopState) =
      some (ProcessResult.dup "Test case webhook already processed" "r-tc") ∧
    (processState (processWebhookData none 2
        (some (mkPayload "r" "tc" "Passed" none)) flipFlopState)).map
        (fun s => alookup s.testCaseResults "r-tc") =
      some (alookup flipFlopState.testCaseResults "r-tc") := by
  decide

/-- **C2** (amended): a validated delivery whose key has a stored entry with
a different status is treated as new — the entry is replaced by the incoming
result and broadcast — **provided** the per-status processed marker for
(key, incoming status) is absent, i.e. no delivery with that key and status
was recorded earlier in the process lifetime. -/
theorem claim2_different_status_is_new_when_marker_absent
    (env : Option Nat) (now : Nat) (p : WebhookPayload) (tc : IncomingResult)
    (s : ServerState) (er : StoredResult)
    (hval : (validateWebhookPayload (some p)).1 = true)
    (hres : p.results = some [tc])
    (hex : alookup s.testCaseResults (p.requestId ++ "-" ++ tc.id) = some er)
    (hst : er.testCase.status ≠ tc.status)
    (hmark : (p.requestId ++ "-" ++ tc.id ++ "-" ++ tc.status) ∉ s.processedWebhooks) :
    ∃ s' : ServerState,
      processWebhookData env now (some p) s = Except.ok (s',
        ProcessResult.ok "Test case webhook processed successfully"
          (p.requestId ++ "-" ++ tc.id) tc.id tc.status false true,
        some { channel := "request-" ++ p.requestId, requestId := p.requestId,
               testCaseId := tc.id, testCase := tc, timestamp := now,
               enhanced := false }) ∧
      alookup s'.testCaseResults (p.requestId ++ "-" ++ tc.id) = some
        { requestId := p.requestId, testCaseId := tc.id, testCase := tc,
          receivedAt := now, compositeKey := p.requestId ++ "-" ++ tc.id,
          ttl := now + effectiveTtl env } := by
  have hred := processWebhookData_valid_eq env now p tc [] s hval hres
  have henh : computeEnhanced s (p.requestId ++ "-" ++ tc.id) tc = false := by
    unfold computeEnhanced
    rw [hex, decide_eq_false_iff_not]
    rintro ⟨h1, -, -⟩
    exact hst h1
  have hdup : computeDuplicate s (p.requestId ++ "-" ++ tc.id ++ "-" ++ tc.status)
      false = false := by
    unfold computeDuplicate
    simp [hmark]
  refine ⟨{ testCaseResults := aset s.testCaseResults (p.requestId ++ "-" ++ tc.id)
              { requestId := p.requestId, testCaseId := tc.id, testCase := tc,
                receivedAt := now, compositeKey := p.requestId ++ "-" ++ tc.id,
                ttl := now + effectiveTtl env },
            processedWebhooks := sinsert s.processedWebhooks
              (p.requestId ++ "-" ++ tc.id ++ "-" ++ tc.status),
            requestExecutions := trackExecution now p.requestId tc.id s.requestExecutions },
    ?_, ?_⟩
  · rw [hred]
    unfold processValidated
    simp only [henh, hdup, Bool.false_eq_true, if_false]
  · exact alookup_aset_self _ _ _

/-- The state after one `Passed` delivery for key `r-tc`. -/
def passedOnceState : ServerState :=
  runOps none [Op.webhook 0 (some (mkPayload "r" "tc" "Passed" none))]

/-- Witness for the amended C2 at a concrete status-changing delivery. -/
theorem claim2_witness :
    ∃ s' : ServerState,
      processWebhookData none 1 (some (mkPayload "r" "tc" "Failed" none))
          passedOnceState = Except.ok (s',
        ProcessResult.ok "Test case webhook processed successfully"
          ((mkPayload "r" "tc" "Failed" none).requestId ++ "-" ++
            (mkResult "tc" "Failed" none).id)
          (mkResult "tc" "Failed" none).id (mkResult "tc" "Failed" none).status
          false true,
        some { channel := "request-" ++ (mkPayload "r" "tc" "Failed" none).requestId,
               requestId := (mkPayload "r" "tc" "Failed" none).requestId,
               testCaseId := (mkResult "tc" "Failed" none).id,
               testCase := mkResult "tc" "Failed" none, timestamp := 1,
               enhanced := false }) ∧
      alookup s'.testCaseResults ((mkPayload "r" "tc" "Failed" none).requestId ++ "-" ++
          (mkResult "tc" "Failed" none).id) = some
        { requestId := (mkPayload "r" "tc" "Failed" none).requestId,
          testCaseId := (mkResult "tc" "Failed" none).id,
          testCase := mkResult "tc" "Failed" none, receivedAt := 1,
          compositeKey := (mkPayload "r" "tc" "Failed" none).requestId ++ "-" ++
            (mkResult "tc" "Failed" none).id,
          ttl := 1 + effectiveTtl none } :=
  claim2_different_status_is_new_when_marker_absent none 1
    (mkPayload "r" "tc" "Failed" none) (mkResult "tc" "Failed" none)
    passedOnceState
    { requestId := "r", testCaseId := "tc", testCase := mkResult "tc" "Passed" none,
      receivedAt := 0, compositeKey := "r-tc", ttl := 0 + 3600000 }
    (by decide) (by decide) (by decide) (by decide) (by decide)

/-- The key-collision preparation for C3: a `d-Passed`-status delivery for
execution `a-b`, a colliding `Passed` delivery for execution `a` (judged a
duplicate because both produce the status key `a-b-c-d-Passed`), and a
delete of execution `a`, which removes the shared marker while the stored
entry `a-b-c` survives. -/
def collisionEnrichOps : List Op :=
  [Op.webhook 0 (some (mkPayload "a-b" "c" "d-Passed" none)),
   Op.webhook 1 (some (mkPayload "a" "b-c-d" "Passed" none)),
   Op.clearRequest "a"]

/-- **C3 counterexample**: after the preparation above, delivering the
payload `(a-b, c, d-Passed, failure)` is processed as an enrichment, and
delivering the **identical** payload a second time is *not* reported as a
duplicate — it is processed again as new with `broadcastSent = true` —
because the per-status marker was removed by the colliding delete and the
enrichment path never re-adds it. -/
theorem claim3_counterexample :
    processOutcome (processWebhookData none 2
        (some (mkPayload "a-b" "c" "d-Passed" (some "boom")))
        (runOps none collisionEnrichOps)) =
      some (ProcessResult.ok "Test case webhook enhanced with failure details"
        "a-b-c" "c" "d-Passed" true true) ∧
    processOutcome (processWebhookData none 3
        (some (mkPayload "a-b" "c" "d-Passed" (some "boom")))
        (runOps none (collisionEnrichOps ++
          [Op.webhook 2 (some (mkPayload "a-b" "c" "d-Passed" (some "boom")))]))) =
      some (ProcessResult.ok "Test case webhook processed successfully"
        "a-b-c" "c" "d-Passed" false true) := by
  decide

/-- **C3** (amended): delivering the identical validated payload a second
time yields the duplicate outcome — reported duplicate, no broadcast, the
stored entry untouched — **provided** the per-status processed marker for
(key, status) is present after the first delivery.  (The marker is present
in every state reachable without a status-key collision; the counterexample
shows a reachable collision state where it is absent.) -/
theorem claim3_identical_redelivery_is_duplicate_when_marked
    (env : Option Nat) (n1 n2 : Nat) (p : WebhookPayload) (tc : IncomingResult)
    (s s1 : ServerState) (pr1 : ProcessResult) (b1 : Option BroadcastMessage)
    (hval : (validateWebhookPayload (some p)).1 = true)
    (hres : p.results = some [tc])
    (h1 : processWebhookData env n1 (some p) s = Except.ok (s1, pr1, b1))
    (hmark : (p.requestId ++ "-" ++ tc.id ++ "-" ++ tc.status) ∈ s1.processedWebhooks) :
    processWebhookData env n2 (some p) s1 = Except.ok
      ({ s1 with requestExecutions := trackExecution n2 p.requestId tc.id s1.requestExecutions },
       ProcessResult.dup "Test case webhook already processed" (p.requestId ++ "-" ++ tc.id),
       none) := by
  rw [processWebhookData_valid_eq env n1 p tc [] s hval hres] at h1
  unfold processValidated at h1
  have henh2 : computeEnhanced s1 (p.requestId ++ "-" ++ tc.id) tc = false := by
    by_cases hd : computeDuplicate s (p.requestId ++ "-" ++ tc.id ++ "-" ++ tc.status)
        (computeEnhanced s (p.requestId ++ "-" ++ tc.id) tc) = true
    · rw [if_pos hd] at h1
      injection h1 with htup
      simp only [Prod.mk.injEq] at htup
      have hstore : s1.testCaseResults = s.testCaseResults := by
        rw [← htup.1]
      have henh1 : computeEnhanced s (p.requestId ++ "-" ++ tc.id) tc = false := by
        unfold computeDuplicate at hd
        by_cases he : computeEnhanced s (p.requestId ++ "-" ++ tc.id) tc = true
        · rw [he] at hd
          simp at hd
        · simpa using he
      unfold computeEnhanced
      rw [hstore]
      unfold computeEnhanced at henh1
      exact henh1
    · rw [if_neg hd] at h1
      injection h1 with htup
      simp only [Prod.mk.injEq] at htup
      have hstore : s1.testCaseResults = aset s.testCaseResults
          (p.requestId ++ "-" ++ tc.id)
          { requestId := p.requestId, testCaseId := tc.id, testCase := tc,
            receivedAt := n1, compositeKey := p.requestId ++ "-" ++ tc.id,
            ttl := n1 + effectiveTtl env } := by
        rw [← htup.1]
      unfold computeEnhanced
      rw [hstore, alookup_aset_self, decide_eq_false_iff_not]
      rintro ⟨-, h2, h3⟩
      exact h3 h2
  have hdup2 : computeDuplicate s1 (p.requestId ++ "-" ++ tc.id ++ "-" ++ tc.status)
      false = true := by
    unfold computeDuplicate
    simp [hmark]
  rw [processWebhookData_valid_eq env n2 p tc [] s1 hval hres]
  unfold processValidated
  simp only [henh2, hdup2, if_true]

/-- Witness for the amended C3 at a concrete identical re-delivery. -/
theorem claim3_witness :
    processWebhookData none 2 (some (mkPayload "r" "tc" "Passed" none))
        passedOnceState = Except.ok
      ({ passedOnceState with
          requestExecutions := trackExecution 2 (mkPayload "r" "tc" "Passed" none).requestId (mkResult "tc" "Passed" none).id passedOnceState.requestExecutions },
       ProcessResult.dup "Test case webhook already processed"
         ((mkPayload "r" "tc" "Passed" none).requestId ++ "-" ++
           (mkResult "tc" "Passed" none).id),
       none) :=
  claim3_identical_redelivery_is_duplicate_when_marked none 0 2
    (mkPayload "r" "tc" "Passed" none) (mkResult "tc" "Passed" none)
    initialState passedOnceState
    (ProcessResult.ok "Test case webhook processed successfully" "r-tc" "tc"
      "Passed" false true)
    (some { channel := "request-r", requestId := "r", testCaseId := "tc",
            testCase := mkResult "tc" "Passed" none, timestamp := 0,
            enhanced := false })
    (by decide) (by decide) (by rfl) (by decide)

/-- **C4 counterexample**: the validator accepts a payload whose single
result has the status `Bogus`, which is outside the allowed status set — the
repository validator never inspects the status field at all.  This refutes
the claim that acceptance requires a status drawn from the allowed set. -/
theorem claim4_counterexample :
    (validateWebhookPayload (some (mkPayload "r1" "TC1" "Bogus" none))).1 = true ∧
    "Bogus" ∉ standardStatuses := by
  decide

/-- **C4** (amended): the validator accepts a payload exactly when it has a
non-empty `requestId`, a non-empty `timestamp` and a results array
containing exactly one entry with a non-empty test-case id — the status is
not checked.  Every rejected payload is answered by the ingestion endpoint
with a 400 client error carrying the defect list, leaving the state
untouched and reaching neither reconciliation nor the store. -/
theorem validator_valid_iff (p : WebhookPayload) :
    (validateWebhookPayload (some p)).1 = true ↔
      (p.requestId ≠ "" ∧ p.timestamp ≠ "" ∧
        ∃ r : IncomingResult, p.results = some [r] ∧ r.id ≠ "") := by
  unfold validateWebhookPayload
  simp only [List.isEmpty_iff, List.append_eq_nil]
  constructor
  · rintro ⟨⟨h1, h2⟩, h3⟩
    refine ⟨?_, ?_, ?_⟩
    · intro hc
      rw [if_pos hc] at h1
      exact List.cons_ne_nil _ _ h1
    · intro hc
      rw [if_pos hc] at h2
      exact List.cons_ne_nil _ _ h2
    · rcases hres : p.results with _ | rs
      · rw [hres] at h3
        simp only [resultsErrors] at h3
        exact absurd h3 (List.cons_ne_nil _ _)
      · rw [hres] at h3
        simp only [resultsErrors] at h3
        rcases rs with _ | ⟨r, rest⟩
        · simp at h3
        · rcases rest with _ | ⟨r2, rest2⟩
          · refine ⟨r, rfl, ?_⟩
            intro hid
            simp [hid] at h3
          · simp at h3
  · rintro ⟨h1, h2, r, hres, hid⟩
    rw [hres]
    simp [resultsErrors, h1, h2, hid]

theorem postWebhook_invalid (env : Option Nat) (now : Nat)
    (pl : Option WebhookPayload) (s : ServerState)
    (hval : (validateWebhookPayload pl).1 = false) :
    postWebhook env now pl s =
      (s, PostResponse.badRequest ("Invalid webhook payload: " ++
        String.intercalate ", " (validateWebhookPayload pl).2), none) := by
  unfold postWebhook processWebhookData
  simp only [hval, Bool.false_eq_true, if_false]

theorem claim4_validator_shape_and_rejection :
    (∀ p : WebhookPayload, (validateWebhookPayload (some p)).1 = true ↔
      (p.requestId ≠ "" ∧ p.timestamp ≠ "" ∧
        ∃ r : IncomingResult, p.results = some [r] ∧ r.id ≠ "")) ∧
    (∀ (env : Option Nat) (now : Nat) (pl : Option WebhookPayload) (s : ServerState),
      (validateWebhookPayload pl).1 = false →
        postWebhook env now pl s =
          (s, PostResponse.badRequest ("Invalid webhook payload: " ++
            String.intercalate ", " (validateWebhookPayload pl).2), none)) :=
  ⟨validator_valid_iff, postWebhook_invalid⟩

/-- Witness for the amended C4: a missing payload is rejected with 400 and
does not change the state. -/
theorem claim4_witness :
    postWebhook none 0 none initialState =
      (initialState, PostResponse.badRequest ("Invalid webhook payload: " ++
        String.intercalate ", " (validateWebhookPayload none).2), none) :=
  claim4_validator_shape_and_rejection.2 none 0 none initialState (by decide)

/-- **C7 counterexample**: a delivery reported as a duplicate is answered
200, but its body is the duplicate object `{ success, message, compositeKey,
duplicate, receivedAt }` — it carries none of the `testCaseId`, `status`,
`enhanced`, `broadcastSent` fields the claim promises for every successful
delivery. -/
theorem claim7_counterexample :
    postStatusCode (postWebhook none 1 (some (mkPayload "r" "tc" "Passed" none))
        passedOnceState).2.1 = 200 ∧
    (postWebhook none 1 (some (mkPayload "r" "tc" "Passed" none))
        passedOnceState).2.1 =
      PostResponse.okDuplicate "Test case webhook already processed" "r-tc" ∧
    "testCaseId" ∉ responseFields (postWebhook none 1
        (some (mkPayload "r" "tc" "Passed" none)) passedOnceState).2.1 ∧
    "status" ∉ responseFields (postWebhook none 1
        (some (mkPayload "r" "tc" "Passed" none)) passedOnceState).2.1 ∧
    "enhanced" ∉ responseFields (postWebhook none 1
        (some (mkPayload "r" "tc" "Passed" none)) passedOnceState).2.1 ∧
    "broadcastSent" ∉ responseFields (postWebhook none 1
        (some (mkPayload "r" "tc" "Passed" none)) passedOnceState).2.1 := by
  decide

/-- **C7** (amended): the ingestion endpoint answers 400 with the defect
message on malformed input (processing failures raised by
`processWebhookData` all land on this 400 path, not on a 500); it answers
200 for every processed delivery; a non-duplicate delivery's body carries
`success, message, compositeKey, testCaseId, status, enhanced,
broadcastSent, receivedAt`, while a duplicate's body carries only
`success, message, compositeKey, duplicate, receivedAt`. -/
theorem claim7_endpoint_responses
    (env : Option Nat) (now : Nat) (pl : Option WebhookPayload) (s : ServerState) :
    ((validateWebhookPayload pl).1 = false →
      postStatusCode (postWebhook env now pl s).2.1 = 400 ∧
      (postWebhook env now pl s).2.1 = PostResponse.badRequest
        ("Invalid webhook payload: " ++
          String.intercalate ", " (validateWebhookPayload pl).2)) ∧
    (∀ (s' : ServerState) (m k : String) (b : Option BroadcastMessage),
      processWebhookData env now pl s = Except.ok (s', ProcessResult.dup m k, b) →
      (postWebhook env now pl s).2.1 = PostResponse.okDuplicate m k ∧
      postStatusCode (postWebhook env now pl s).2.1 = 200 ∧
      responseFields (postWebhook env now pl s).2.1 =
        ["success", "message", "compositeKey", "duplicate", "receivedAt"]) ∧
    (∀ (s' : ServerState) (m k tcid st : String) (e bs : Bool)
        (b : Option BroadcastMessage),
      processWebhookData env now pl s =
          Except.ok (s', ProcessResult.ok m k tcid st e bs, b) →
      (postWebhook env now pl s).2.1 = PostResponse.okProcessed m k tcid st e bs ∧
      postStatusCode (postWebhook env now pl s).2.1 = 200 ∧
      responseFields (postWebhook env now pl s).2.1 =
        ["success", "message", "compositeKey", "testCaseId", "status",
         "enhanced", "broadcastSent", "receivedAt"]) := by
  refine ⟨?_, ?_, ?_⟩
  · intro hval
    rw [postWebhook_invalid env now pl s hval]
    exact ⟨rfl, rfl⟩
  · intro s' m k b h
    unfold postWebhook
    rw [h]
    exact ⟨rfl, rfl, rfl⟩
  · intro s' m k tcid st e bs b h
    unfold postWebhook
    rw [h]
    exact ⟨rfl, rfl, rfl⟩

/-- Witness for the amended C7 at the concrete duplicate delivery. -/
theorem claim7_witness :
    (postWebhook none 1 (some (mkPayload "r" "tc" "Passed" none))
        passedOnceState).2.1 =
      PostResponse.okDuplicate "Test case webhook already processed" "r-tc" ∧
    postStatusCode (postWebhook none 1 (some (mkPayload "r" "tc" "Passed" none))
        passedOnceState).2.1 = 200 ∧
    responseFields (postWebhook none 1 (some (mkPayload "r" "tc" "Passed" none))
        passedOnceState).2.1 =
      ["success", "message", "compositeKey", "duplicate", "receivedAt"] :=
  (claim7_endpoint_responses none 1 (some (mkPayload "r" "tc" "Passed" none))
      passedOnceState).2.1
    { passedOnceState with
      requestExecutions := trackExecution 1 "r" "tc" passedOnceState.requestExecutions }
    "Test case webhook already processed" "r-tc" none (by rfl)

/-- **C8**: reading a single composite key whose stored entry's TTL instant
has passed answers 404 with the expiry message even though no sweeper
exists on this path, and the read itself deletes the expired entry from the
Result Store.  (The `ttl ≠ 0` hypothesis mirrors the JS truthiness guard
`result.ttl && ...`; every entry the server stores has a positive ttl.) -/
theorem claim8_expired_read_is_404_and_deletes
    (now : Nat) (r tcid : String) (s : ServerState) (er : StoredResult)
    (hnd : (s.testCaseResults.map Prod.fst).Nodup)
    (hex : alookup s.testCaseResults (r ++ "-" ++ tcid) = some er)
    (hpos : er.ttl ≠ 0) (hlt : er.ttl < now) :
    (getTestCaseResult now r tcid s).2.1 = 404 ∧
    (getTestCaseResult now r tcid s).2.2 =
      GetSingleResponse.notFound "Test case result has expired" ∧
    alookup (getTestCaseResult now r tcid s).1.testCaseResults
      (r ++ "-" ++ tcid) = none := by
  have hexp : isExpired now er.ttl := ⟨hpos, hlt⟩
  unfold getTestCaseResult
  simp only [hex, if_pos hexp]
  refine ⟨trivial, trivial, ?_⟩
  exact alookup_aerase_self _ _ hnd

/-- Witness for C8: the entry stored at time 0 with the default one-hour
TTL is gone for a read at time 4000000. -/
theorem claim8_witness :
    (getTestCaseResult 4000000 "r" "tc" passedOnceState).2.1 = 404 ∧
    (getTestCaseResult 4000000 "r" "tc" passedOnceState).2.2 =
      GetSingleResponse.notFound "Test case result has expired" ∧
    alookup (getTestCaseResult 4000000 "r" "tc" passedOnceState).1.testCaseResults
      ("r" ++ "-" ++ "tc") = none :=
  claim8_expired_read_is_404_and_deletes 4000000 "r" "tc" passedOnceState
    { requestId := "r", testCaseId := "tc", testCase := mkResult "tc" "Passed" none,
      receivedAt := 0, compositeKey := "r-tc", ttl := 0 + 3600000 }
    (by decide) (by decide) (by decide) (by decide)

/-! ## C9: subscription replay -/

/-- The message (if any) the subscription replay emits for one test-case id:
present exactly when the entry exists and `!ttl || ttl > now`. -/
def replayOf (now : Nat) (requestId : String) (s : ServerState) (tc : String) :
    Option ReplayMessage :=
  match alookup s.testCaseResults (requestId ++ "-" ++ tc) with
  | none => none
  | some er =>
    if er.ttl = 0 ∨ now < er.ttl then
      some ⟨requestId, tc, er.testCase, er.receivedAt⟩
    else none

/-- Appending the content of an optional element. -/
def appendStep {γ : Type} (a : List γ) (x : Option γ) : List γ :=
  match x with
  | some c => a ++ [c]
  | none => a

theorem foldl_append_step {β γ : Type} (g : β → Option γ) (l : List β) :
    ∀ acc : List γ,
      l.foldl (fun a b => appendStep a (g b)) acc = acc ++ l.filterMap g := by
  induction l with
  | nil => intro acc; simp
  | cons b t ih =>
    intro acc
    rw [List.foldl_cons]
    cases hg : g b with
    | none =>
      rw [show appendStep acc none = acc from rfl, ih acc,
        show List.filterMap g (b :: t) = List.filterMap g t from by
          simp [List.filterMap_cons, hg]]
    | some c =>
      rw [show appendStep acc (some c) = acc ++ [c] from rfl, ih (acc ++ [c]),
        show List.filterMap g (b :: t) = c :: List.filterMap g t from by
          simp [List.filterMap_cons, hg]]
      simp

theorem subscribeRequestReplay_eq_filterMap (now : Nat) (r : String)
    (s : ServerState) (e : ExecutionEntry)
    (he : alookup s.requestExecutions r = some e) :
    subscribeRequestReplay now r s = e.testCaseIds.filterMap (replayOf now r s) := by
  unfold subscribeRequestReplay
  rw [he]
  show e.testCaseIds.foldl (fun acc tc =>
      match alookup s.testCaseResults (r ++ "-" ++ tc) with
      | none => acc
      | some er =>
        if er.ttl = 0 ∨ now < er.ttl then
          acc ++ [⟨r, tc, er.testCase, er.receivedAt⟩]
        else acc) [] = e.testCaseIds.filterMap (replayOf now r s)
  have hstep : (fun (acc : List ReplayMessage) tc =>
      match alookup s.testCaseResults (r ++ "-" ++ tc) with
      | none => acc
      | some er =>
        if er.ttl = 0 ∨ now < er.ttl then
          acc ++ [⟨r, tc, er.testCase, er.receivedAt⟩]
        else acc) =
      (fun (acc : List ReplayMessage) tc => appendStep acc (replayOf now r s tc)) := by
    funext acc tc
    unfold replayOf
    cases halo : alookup s.testCaseResults (r ++ "-" ++ tc) with
    | none => rfl
    | some er =>
      show (if er.ttl = 0 ∨ now < er.ttl then
          acc ++ [⟨r, tc, er.testCase, er.receivedAt⟩] else acc) =
        appendStep acc (if er.ttl = 0 ∨ now < er.ttl then
          some (⟨r, tc, er.testCase, er.receivedAt⟩ : ReplayMessage) else none)
      by_cases hl : er.ttl = 0 ∨ now < er.ttl
      · rw [if_pos hl, if_pos hl]
        rfl
      · rw [if_neg hl, if_neg hl]
        rfl
  rw [hstep, foldl_append_step]
  rw [List.nil_append]

theorem nodup_map_filterMap {β γ : Type} (g : β → Option γ) (pr : γ → β)
    (hpr : ∀ b c, g b = some c → pr c = b) (l : List β) (hnd : l.Nodup) :
    ((l.filterMap g).map pr).Nodup := by
  induction l with
  | nil => simp
  | cons b t ih =>
    simp only [List.nodup_cons] at hnd
    cases hg : g b with
    | none =>
      simp only [List.filterMap_cons, hg]
      exact ih hnd.2
    | some c =>
      simp only [List.filterMap_cons, hg, List.map_cons, List.nodup_cons]
      refine ⟨?_, ih hnd.2⟩
      intro hc
      rcases List.mem_map.mp hc with ⟨c2, hc2, hpc⟩
      rcases List.mem_filterMap.mp hc2 with ⟨b2, hb2, hgb2⟩
      have h1 : pr c2 = b2 := hpr b2 c2 hgb2
      have h2 : pr c = b := hpr b c hg
      rw [h2, h1] at hpc
      exact hnd.1 (hpc ▸ hb2)

/-- The state after one delivery stored with `RESULT_TTL = 5` at time 0:
the entry's expiry instant is exactly 5. -/
def boundaryState : ServerState :=
  runOps (some 5) [Op.webhook 0 (some (mkPayload "r" "tc" "Passed" none))]

/-- **C9 counterexample**: at the exact expiry instant (`now = ttl = 5`) a
stored result is still non-expired for the read path — the single-result
read answers 200 — yet the subscription replay delivers nothing, because the
replay uses the strict `ttl > now` test while expiry elsewhere is
`ttl < now`.  A subscription thus does not receive every currently
non-expired stored result. -/
theorem claim9_counterexample :
    subscribeRequestReplay 5 "r" boundaryState = [] ∧
    (alookup boundaryState.testCaseResults ("r" ++ "-" ++ "tc")).map
      (fun er => decide (isExpired 5 er.ttl)) = some false ∧
    (getTestCaseResult 5 "r" "tc" boundaryState).2.1 = 200 := by
  decide

/-- **C9** (amended): upon subscription, the replay delivers exactly the
stored results of the execution whose ttl is `0` or strictly in the future
(`ttl > now`): each such result is sent, each test-case id at most once, and
every message replays a registered live stored result for the subscribed
request id.  A result at exactly its expiry instant, though still readable,
is not replayed. -/
theorem claim9_replay_characterization
    (now : Nat) (r : String) (s : ServerState) (e : ExecutionEntry)
    (he : alookup s.requestExecutions r = some e) (hnd : e.testCaseIds.Nodup) :
    (∀ tc ∈ e.testCaseIds, ∀ er : StoredResult,
      alookup s.testCaseResults (r ++ "-" ++ tc) = some er →
      (er.ttl = 0 ∨ now < er.ttl) →
      (⟨r, tc, er.testCase, er.receivedAt⟩ : ReplayMessage) ∈
        subscribeRequestReplay now r s) ∧
    ((subscribeRequestReplay now r s).map (fun m => m.testCaseId)).Nodup ∧
    (∀ msg ∈ subscribeRequestReplay now r s,
      msg.requestId = r ∧ msg.testCaseId ∈ e.testCaseIds ∧
      ∃ er : StoredResult,
        alookup s.testCaseResults (r ++ "-" ++ msg.testCaseId) = some er ∧
        (er.ttl = 0 ∨ now < er.ttl) ∧ msg.testCase = er.testCase ∧
        msg.timestamp = er.receivedAt) := by
  rw [subscribeRequestReplay_eq_filterMap now r s e he]
  refine ⟨?_, ?_, ?_⟩
  · intro tc htc er her hlive
    refine List.mem_filterMap.mpr ⟨tc, htc, ?_⟩
    unfold replayOf
    rw [her]
    show (if er.ttl = 0 ∨ now < er.ttl then
        some (⟨r, tc, er.testCase, er.receivedAt⟩ : ReplayMessage) else none) =
      some ⟨r, tc, er.testCase, er.receivedAt⟩
    rw [if_pos hlive]
  · refine nodup_map_filterMap (replayOf now r s) (fun m => m.testCaseId) ?_ _ hnd
    intro b c hg
    unfold replayOf at hg
    cases halo : alookup s.testCaseResults (r ++ "-" ++ b) with
    | none =>
      rw [halo] at hg
      exact absurd hg (by simp)
    | some er =>
      rw [halo] at hg
      have hg2 : (if er.ttl = 0 ∨ now < er.ttl then
          some (⟨r, b, er.testCase, er.receivedAt⟩ : ReplayMessage) else none) =
          some c := hg
      by_cases hl : er.ttl = 0 ∨ now < er.ttl
      · rw [if_pos hl] at hg2
        cases hg2
        rfl
      · rw [if_neg hl] at hg2
        exact absurd hg2 (by simp)
  · intro msg hmsg
    rcases List.mem_filterMap.mp hmsg with ⟨tc, htc, hg⟩
    unfold replayOf at hg
    cases halo : alookup s.testCaseResults (r ++ "-" ++ tc) with
    | none =>
      rw [halo] at hg
      exact absurd hg (by simp)
    | some er =>
      rw [halo] at hg
      have hg2 : (if er.ttl = 0 ∨ now < er.ttl then
          some (⟨r, tc, er.testCase, er.receivedAt⟩ : ReplayMessage) else none) =
          some msg := hg
      by_cases hl : er.ttl = 0 ∨ now < er.ttl
      · rw [if_pos hl] at hg2
        cases hg2
        exact ⟨rfl, htc, er, halo, hl, rfl, rfl⟩
      · rw [if_neg hl] at hg2
        exact absurd hg2 (by simp)

/-- Witness for the amended C9: the single live result of `passedOnceState`
is replayed to a late subscriber. -/
theorem claim9_witness :
    (⟨"r", "tc", mkResult "tc" "Passed" none, 0⟩ : ReplayMessage) ∈
      subscribeRequestReplay 10 "r" passedOnceState ∧
    ((subscribeRequestReplay 10 "r" passedOnceState).map
      (fun m => m.testCaseId)).Nodup := by
  have h := claim9_replay_characterization 10 "r" passedOnceState
    { testCaseIds := ["tc"], timestamp := 0 } (by decide) (by decide)
  exact ⟨h.1 "tc" (by decide)
    { requestId := "r", testCaseId := "tc", testCase := mkResult "tc" "Passed" none,
      receivedAt := 0, compositeKey := "r-tc", ttl := 0 + 3600000 }
    (by decide) (by decide), h.2.1⟩

/-! ## C5: the expiry sweeper -/

theorem foldl_preserve_mem {σ β : Type} (f : σ → β → σ) (P : σ → Prop) (l : List β)
    (hstep : ∀ st b, b ∈ l → P st → P (f st b)) :
    ∀ st, P st → P (l.foldl f st) := by
  induction l with
  | nil => intro st h; exact h
  | cons b t ih =>
    intro st h
    exact ih (fun st2 b2 hb2 => hstep st2 b2 (List.mem_cons_of_mem _ hb2)) (f st b)
      (hstep st b (List.mem_cons_self _ _) h)

theorem foldl_establish_mem {σ β : Type} (f : σ → β → σ) (P Q : σ → Prop) (b0 : β)
    (l : List β)
    (hQ : ∀ st b, b ∈ l → Q st → Q (f st b))
    (hPQ : ∀ st, Q st → P (f st b0))
    (hP : ∀ st b, b ∈ l → P st → P (f st b)) :
    ∀ st, b0 ∈ l → Q st → P (l.foldl f st) := by
  induction l with
  | nil =>
    intro st h
    simp at h
  | cons b t ih =>
    intro st hb hq
    rcases List.mem_cons.mp hb with heq | hb2
    · subst heq
      exact foldl_preserve_mem f P t
        (fun st2 b2 hb2 => hP st2 b2 (List.mem_cons_of_mem _ hb2)) (f st b0)
        (hPQ st hq)
    · exact ih (fun st2 b2 hb2 => hQ st2 b2 (List.mem_cons_of_mem _ hb2))
        (fun st2 b2 hb2 => hP st2 b2 (List.mem_cons_of_mem _ hb2)) (f st b) hb2
        (hQ st b (List.mem_cons_self _ _) hq)

theorem removeFromFirstExecution_mem (l : List (String × List String)) (x : String) :
    ∀ e ∈ removeFromFirstExecution l x, ∃ e0 ∈ l, e.1 = e0.1 ∧ e.2.Sublist e0.2 := by
  induction l with
  | nil =>
    intro e he
    simp [removeFromFirstExecution] at he
  | cons q t ih =>
    obtain ⟨reqId, ids⟩ := q
    intro e he
    by_cases hx : x ∈ ids
    · simp only [removeFromFirstExecution, if_pos hx] at he
      by_cases hz : (serase ids x).length = 0
      · rw [if_pos hz] at he
        exact ⟨e, List.mem_cons_of_mem _ he, rfl, List.Sublist.refl _⟩
      · rw [if_neg hz] at he
        rcases List.mem_cons.mp he with heq | he2
        · subst heq
          exact ⟨(reqId, ids), List.mem_cons_self _ _, rfl, serase_sublist ids x⟩
        · exact ⟨e, List.mem_cons_of_mem _ he2, rfl, List.Sublist.refl _⟩
    · simp only [removeFromFirstExecution, if_neg hx] at he
      rcases List.mem_cons.mp he with heq | he2
      · subst heq
        exact ⟨(reqId, ids), List.mem_cons_self _ _, rfl, List.Sublist.refl _⟩
      · rcases ih e he2 with ⟨e0, he0, h1, h2⟩
        exact ⟨e0, List.mem_cons_of_mem _ he0, h1, h2⟩

theorem removeFromFirstExecution_filter_le (l : List (String × List String))
    (x k : String) :
    (List.filter (fun e => decide (k ∈ e.2)) (removeFromFirstExecution l x)).length ≤
      (List.filter (fun e => decide (k ∈ e.2)) l).length := by
  induction l with
  | nil => simp [removeFromFirstExecution]
  | cons q t ih =>
    obtain ⟨reqId, ids⟩ := q
    by_cases hx : x ∈ ids
    · simp only [removeFromFirstExecution, if_pos hx]
      by_cases hz : (serase ids x).length = 0
      · rw [if_pos hz]
        by_cases hk : k ∈ ids
        · simp [List.filter_cons, hk] <;> omega
        · simp [List.filter_cons, hk]
      · rw [if_neg hz]
        by_cases hk : k ∈ serase ids x
        · have hk2 : k ∈ ids := mem_of_mem_serase hk
          simp [List.filter_cons, hk, hk2]
        · by_cases hk2 : k ∈ ids
          · simp [List.filter_cons, hk, hk2] <;> omega
          · simp [List.filter_cons, hk, hk2]
    · have hih := ih
      simp only [removeFromFirstExecution, if_neg hx]
      by_cases hk : k ∈ ids
      · simp [List.filter_cons, hk] <;> omega
      · simp [List.filter_cons, hk] <;> omega

theorem removeFromFirstExecution_not_mem (l : List (String × List String)) (x : String)
    (hnd : ∀ e ∈ l, e.2.Nodup)
    (hone : (List.filter (fun e => decide (x ∈ e.2)) l).length ≤ 1) :
    ∀ e ∈ removeFromFirstExecution l x, x ∉ e.2 := by
  induction l with
  | nil =>
    intro e he
    simp [removeFromFirstExecution] at he
  | cons q t ih =>
    obtain ⟨reqId, ids⟩ := q
    intro e he
    by_cases hx : x ∈ ids
    · have hcons : List.filter (fun e => decide (x ∈ e.2)) ((reqId, ids) :: t) =
          (reqId, ids) :: List.filter (fun e => decide (x ∈ e.2)) t := by
        simp [List.filter_cons, hx]
      rw [hcons, List.length_cons] at hone
      have hfil : (List.filter (fun e => decide (x ∈ e.2)) t).length = 0 := by omega
      have htail : ∀ e2 ∈ t, x ∉ e2.2 := by
        intro e2 he2 hc
        have hmem : e2 ∈ List.filter (fun e => decide (x ∈ e.2)) t :=
          List.mem_filter.mpr ⟨he2, by simpa using hc⟩
        rw [List.length_eq_zero] at hfil
        rw [hfil] at hmem
        simp at hmem
      simp only [removeFromFirstExecution, if_pos hx] at he
      by_cases hz : (serase ids x).length = 0
      · rw [if_pos hz] at he
        exact htail e he
      · rw [if_neg hz] at he
        rcases List.mem_cons.mp he with heq | he2
        · subst heq
          exact not_mem_serase_self (hnd (reqId, ids) (List.mem_cons_self _ _))
        · exact htail e he2
    · simp only [removeFromFirstExecution, if_neg hx] at he
      rcases List.mem_cons.mp he with heq | he2
      · subst heq
        exact hx
      · refine ih (fun e2 he2 => hnd e2 (List.mem_cons_of_mem _ he2)) ?_ e he2
        have hcons : List.filter (fun e => decide (x ∈ e.2)) ((reqId, ids) :: t) =
            List.filter (fun e => decide (x ∈ e.2)) t := by
          simp [List.filter_cons, hx]
        rw [hcons] at hone
        exact hone

/-- After a sweeper run, an expired key is fully gone from the three
structures. -/
def sweepGone (k : String) (st : SweepState) : Prop :=
  alookup st.webhookResults k = none ∧ k ∉ st.processedWebhooks ∧
    ∀ e ∈ st.activeRequests, k ∉ e.2

/-- The well-formedness facts the sweeper proof carries through the fold:
no duplicate store keys, no duplicate processed ids, registry sets without
duplicates, and at most one registry set containing the key of interest. -/
def sweepInv (k : String) (st : SweepState) : Prop :=
  (st.webhookResults.map Prod.fst).Nodup ∧ st.processedWebhooks.Nodup ∧
    (∀ e ∈ st.activeRequests, e.2.Nodup) ∧
    (List.filter (fun e => decide (k ∈ e.2)) st.activeRequests).length ≤ 1

theorem sweepEntry_preserves_inv (now : Nat) (k : String) (st : SweepState)
    (kv : String × Nat) (h : sweepInv k st) : sweepInv k (sweepEntry now st kv) := by
  unfold sweepEntry
  by_cases hexp : isExpired now kv.2
  · rw [if_pos hexp]
    obtain ⟨h1, h2, h3, h4⟩ := h
    refine ⟨map_fst_aerase_nodup _ _ h1, nodup_serase _ h2, ?_, ?_⟩
    · intro e he
      rcases removeFromFirstExecution_mem _ _ e he with ⟨e0, he0, -, hsub⟩
      exact hsub.nodup (h3 e0 he0)
    · exact le_trans (removeFromFirstExecution_filter_le _ _ _) h4
  · rw [if_neg hexp]
    exact h

theorem sweepEntry_preserves_gone (now : Nat) (k : String) (st : SweepState)
    (kv : String × Nat) (h : sweepGone k st) : sweepGone k (sweepEntry now st kv) := by
  unfold sweepEntry
  by_cases hexp : isExpired now kv.2
  · rw [if_pos hexp]
    obtain ⟨h1, h2, h3⟩ := h
    refine ⟨alookup_none_of_aerase h1 _, not_mem_serase_of_not_mem h2, ?_⟩
    intro e he hc
    rcases removeFromFirstExecution_mem _ _ e he with ⟨e0, he0, -, hsub⟩
    exact h3 e0 he0 (hsub.subset hc)
  · rw [if_neg hexp]
    exact h

theorem sweepEntry_establishes (now : Nat) (k : String) (t : Nat) (st : SweepState)
    (hexp : isExpired now t) (h : sweepInv k st) :
    sweepGone k (sweepEntry now st (k, t)) := by
  unfold sweepEntry
  rw [if_pos hexp]
  obtain ⟨h1, h2, h3, h4⟩ := h
  exact ⟨alookup_aerase_self _ _ h1, not_mem_serase_self h2,
    removeFromFirstExecution_not_mem _ _ h3 h4⟩

/-- A sweeper state whose expired entry `x` is referenced by two registry
entries. -/
def sweepTwoExecState : SweepState :=
  { webhookResults := [("x", 5)], processedWebhooks := ["x"],
    activeRequests := [("R1", ["x"]), ("R2", ["x"])] }

/-- **C5 counterexample**: sweeping a state where the expired id `x` sits in
two registry sets removes it from the store, from the processed set, and
from the **first** registry set only — the inner loop stops at the first
match — so `R2` still contains `x` after the run.  The claim's "removes the
corresponding id for each affected execution" fails. -/
theorem claim5_counterexample :
    isExpired 10 5 ∧
    cleanupExpiredResults 10 sweepTwoExecState =
      { webhookResults := [], processedWebhooks := [],
        activeRequests := [("R2", ["x"])] } ∧
    ¬ (∀ e ∈ (cleanupExpiredResults 10 sweepTwoExecState).activeRequests,
        "x" ∉ e.2) := by
  refine ⟨by decide, by decide, ?_⟩
  intro h
  exact h ("R2", ["x"]) (by decide) (by decide)

/-- **C5** (amended): each sweeper run removes every Result Store entry past
its expiry instant together with its entry in the duplicate-tracking
structure, keeps every non-expired entry, and — when at most one registry
entry contains the expired id — removes the id from the registry (pruning
an emptied execution entry).  An id contained in several registry sets is
removed only from the first; later sets retain it (see the
counterexample). -/
theorem claim5_sweeper_removal (now : Nat) (s : SweepState)
    (hndk : (s.webhookResults.map Prod.fst).Nodup)
    (hndp : s.processedWebhooks.Nodup)
    (hnds : ∀ e ∈ s.activeRequests, e.2.Nodup) :
    (∀ k t, (k, t) ∈ s.webhookResults → isExpired now t →
      alookup (cleanupExpiredResults now s).webhookResults k = none ∧
      k ∉ (cleanupExpiredResults now s).processedWebhooks ∧
      ((List.filter (fun e => decide (k ∈ e.2)) s.activeRequests).length ≤ 1 →
        ∀ e ∈ (cleanupExpiredResults now s).activeRequests, k ∉ e.2)) ∧
    (∀ k t, (k, t) ∈ s.webhookResults → ¬ isExpired now t →
      alookup (cleanupExpiredResults now s).webhookResults k = some t) := by
  constructor
  · intro k t hkt hexp
    have hmain : (List.filter (fun e => decide (k ∈ e.2)) s.activeRequests).length ≤ 1 →
        sweepGone k (cleanupExpiredResults now s) := by
      intro hone
      exact foldl_establish_mem (sweepEntry now) (sweepGone k) (sweepInv k) (k, t)
        s.webhookResults
        (fun st b _ h => sweepEntry_preserves_inv now k st b h)
        (fun st h => sweepEntry_establishes now k t st hexp h)
        (fun st b _ h => sweepEntry_preserves_gone now k st b h)
        s hkt ⟨hndk, hndp, hnds, hone⟩
    by_cases hone : (List.filter (fun e => decide (k ∈ e.2)) s.activeRequests).length ≤ 1
    · exact ⟨(hmain hone).1, (hmain hone).2.1, fun _ => (hmain hone).2.2⟩
    · -- without the at-most-one hypothesis, re-run the fold with the trivial
      -- bound dropped: only the first two conjuncts are claimed
      have hgone2 : alookup (cleanupExpiredResults now s).webhookResults k = none ∧
          k ∉ (cleanupExpiredResults now s).processedWebhooks := by
        have := foldl_establish_mem (sweepEntry now)
          (fun st => alookup st.webhookResults k = none ∧ k ∉ st.processedWebhooks)
          (fun st => (st.webhookResults.map Prod.fst).Nodup ∧ st.processedWebhooks.Nodup)
          (k, t) s.webhookResults
          (fun st b _ h => by
            unfold sweepEntry
            by_cases hexp2 : isExpired now b.2
            · rw [if_pos hexp2]
              exact ⟨map_fst_aerase_nodup _ _ h.1, nodup_serase _ h.2⟩
            · rw [if_neg hexp2]
              exact h)
          (fun st h => by
            unfold sweepEntry
            rw [if_pos hexp]
            exact ⟨alookup_aerase_self _ _ h.1, not_mem_serase_self h.2⟩)
          (fun st b _ h => by
            unfold sweepEntry
            by_cases hexp2 : isExpired now b.2
            · rw [if_pos hexp2]
              exact ⟨alookup_none_of_aerase h.1 _, not_mem_serase_of_not_mem h.2⟩
            · rw [if_neg hexp2]
              exact h)
          s hkt ⟨hndk, hndp⟩
        exact this
      exact ⟨hgone2.1, hgone2.2, fun hc => absurd hc hone⟩
  · intro k t hkt hexp
    have hstart : alookup s.webhookResults k = some t := alookup_of_mem_nodup hkt hndk
    exact foldl_preserve_mem (sweepEntry now)
      (fun st => alookup st.webhookResults k = some t) s.webhookResults
      (fun st b hb h => by
        unfold sweepEntry
        by_cases hexp2 : isExpired now b.2
        · rw [if_pos hexp2]
          by_cases hk : b.1 = k
          · exfalso
            have hb2 : alookup s.webhookResults b.1 = some b.2 := by
              rcases b with ⟨b1, b2⟩
              exact alookup_of_mem_nodup hb hndk
            rw [hk, hstart] at hb2
            have ht : t = b.2 := by injection hb2
            rw [← ht] at hexp2
            exact hexp hexp2
          · show alookup (aerase st.webhookResults b.1) k = some t
            rw [alookup_aerase_ne _ _ _ (fun hc => hk hc.symm)]
            exact h
        · rw [if_neg hexp2]
          exact h)
      s hstart

/-- A sweeper state with one expired and one live entry, the expired one in
a single registry set. -/
def sweepDemoState : SweepState :=
  { webhookResults := [("x", 5), ("y", 100)], processedWebhooks := ["x", "y"],
    activeRequests := [("R", ["x", "y"])] }

/-- Witness for the amended C5: the expired entry `x` is removed everywhere
while the live entry `y` survives. -/
theorem claim5_witness :
    (alookup (cleanupExpiredResults 10 sweepDemoState).webhookResults "x" = none ∧
      "x" ∉ (cleanupExpiredResults 10 sweepDemoState).processedWebhooks ∧
      ∀ e ∈ (cleanupExpiredResults 10 sweepDemoState).activeRequests, "x" ∉ e.2) ∧
    alookup (cleanupExpiredResults 10 sweepDemoState).webhookResults "y" = some 100 := by
  have h := claim5_sweeper_removal 10 sweepDemoState (by decide) (by decide)
    (by
      intro e he
      have he2 : e = ("R", ["x", "y"]) := by simpa [sweepDemoState] using he
      rw [he2]
      decide)
  have ha := h.1 "x" 5 (by decide) (by decide)
  exact ⟨⟨ha.1, ha.2.1, ha.2.2 (by decide)⟩, h.2 "y" 100 (by decide) (by decide)⟩

/-! ## Trace history: keys ever stored -/

/-- The store currently holds an entry under the key. -/
def hasStored (s : ServerState) (k : String) : Prop :=
  (alookup s.testCaseResults k).isSome = true

instance (s : ServerState) (k : String) : Decidable (hasStored s k) := by
  unfold hasStored
  infer_instance

/-- The key held an entry after some prefix of the trace ("has, or once
had, a corresponding entry"). -/
def everStored (env : Option Nat) (ops : List Op) (k : String) : Prop :=
  ∃ n, hasStored (runOps env (ops.take n)) k

theorem runOps_append_one (env : Option Nat) (ops : List Op) (op : Op) :
    runOps env (ops ++ [op]) = applyOp env (runOps env ops) op := by
  unfold runOps
  rw [List.foldl_append]
  rfl

theorem take_append_one (ops : List Op) (op : Op) (n : Nat) (h : n ≤ ops.length) :
    (ops ++ [op]).take n = ops.take n := by
  rw [List.take_append_eq_append_take, Nat.sub_eq_zero_of_le h, List.take_zero,
    List.append_nil]

theorem everStored_mono (env : Option Nat) (ops : List Op) (op : Op) (k : String)
    (h : everStored env ops k) : everStored env (ops ++ [op]) k := by
  rcases h with ⟨n, hn⟩
  by_cases hle : n ≤ ops.length
  · exact ⟨n, by rwa [take_append_one ops op n hle]⟩
  · push_neg at hle
    refine ⟨ops.length, ?_⟩
    rw [take_append_one ops op ops.length (le_refl _), List.take_length]
    rwa [List.take_of_length_le (le_of_lt hle)] at hn

theorem everStored_of_current (env : Option Nat) (ops : List Op) (k : String)
    (h : hasStored (runOps env ops) k) : everStored env ops k :=
  ⟨ops.length, by rwa [List.take_length]⟩

/-- The requestExecutions component of a validated processing step is the
execution-tracking update, on both the duplicate and the store branch. -/
theorem processValidated_exec (env : Option Nat) (now : Nat) (r : String)
    (tc : IncomingResult) (s : ServerState) :
    (processValidated env now r tc s).1.requestExecutions =
      trackExecution now r tc.id s.requestExecutions := by
  simp only [processValidated]
  by_cases hd : computeDuplicate s (r ++ "-" ++ tc.id ++ "-" ++ tc.status)
      (computeEnhanced s (r ++ "-" ++ tc.id) tc) = true
  · rw [if_pos hd]
  · rw [if_neg hd]

/-- The two deliveries whose status keys collide: `(a, b, c-Passed)` and
`(a, b-c, Passed)` both produce the status key `a-b-c-Passed`, so the second
is judged a duplicate although the composite key `a-b-c` was never stored. -/
def collisionOps : List Op :=
  [Op.webhook 0 (some (mkPayload "a" "b" "c-Passed" none)),
   Op.webhook 1 (some (mkPayload "a" "b-c" "Passed" none))]

theorem collision_never_stored : ¬ everStored none collisionOps "a-b-c" := by
  rintro ⟨n, hn⟩
  match n with
  | 0 => revert hn; decide
  | 1 => revert hn; decide
  | (m + 2) =>
    rw [List.take_of_length_le (by
      have hl : collisionOps.length = 2 := rfl
      rw [hl]
      omega)] at hn
    revert hn
    decide

/-- **C10**: every validated delivery — including one reported as a
duplicate — inserts its test-case id into the execution's registry set
before the duplicate decision; consequently the duplicate-reported second
collision delivery still mutates the Execution Registry, and the
`totalExpected` counter of the list-by-execution read counts the id `b-c`
although no result was ever stored under its composite key. -/
theorem claim10_registry_mutation_and_total_expected :
    (∀ (env : Option Nat) (now : Nat) (p : WebhookPayload) (tc : IncomingResult)
        (s : ServerState),
      (validateWebhookPayload (some p)).1 = true → p.results = some [tc] →
      ∃ (s1 : ServerState) (pr : ProcessResult) (b : Option BroadcastMessage)
        (e : ExecutionEntry),
        processWebhookData env now (some p) s = Except.ok (s1, pr, b) ∧
        alookup s1.requestExecutions p.requestId = some e ∧
        tc.id ∈ e.testCaseIds) ∧
    processOutcome (processWebhookData none 1 (some (mkPayload "a" "b-c" "Passed" none))
        (runOps none (collisionOps.take 1))) =
      some (ProcessResult.dup "Test case webhook already processed" "a-b-c") ∧
    (alookup (runOps none collisionOps).requestExecutions "a").map
      (fun e => decide ("b-c" ∈ e.testCaseIds)) = some true ∧
    listCounts (getRequestResults 2 "a" (runOps none collisionOps)).2.2 = some (1, 2) ∧
    ¬ everStored none collisionOps "a-b-c" := by
  refine ⟨?_, by decide, by decide, by decide, collision_never_stored⟩
  intro env now p tc s hval hres
  obtain ⟨e, he, hmem, -⟩ := trackExecution_lookup_self now p.requestId tc.id
    s.requestExecutions
  refine ⟨(processValidated env now p.requestId tc s).1,
    (processValidated env now p.requestId tc s).2.1,
    (processValidated env now p.requestId tc s).2.2, e, ?_, ?_, hmem⟩
  · rw [processWebhookData_valid_eq env now p tc [] s hval hres]
  · rw [processValidated_exec]
    exact he

/-- Witness for C10 at a concrete first delivery. -/
theorem claim10_witness :
    ∃ (s1 : ServerState) (pr : ProcessResult) (b : Option BroadcastMessage)
      (e : ExecutionEntry),
      processWebhookData none 0 (some (mkPayload "w" "t" "Passed" none))
          initialState = Except.ok (s1, pr, b) ∧
      alookup s1.requestExecutions (mkPayload "w" "t" "Passed" none).requestId =
        some e ∧
      (mkResult "t" "Passed" none).id ∈ e.testCaseIds :=
  claim10_registry_mutation_and_total_expected.1 none 0
    (mkPayload "w" "t" "Passed" none) (mkResult "t" "Passed" none) initialState
    (by decide) (by decide)

/-! ## C6: strings, status-key decomposition and the trace invariant -/

/-- The string contains no dash, so composite and status keys that use it
as a suffix decompose uniquely. -/
def dashFree (x : String) : Prop := '-' ∉ x.data

instance (x : String) : Decidable (dashFree x) := by
  unfold dashFree
  infer_instance

theorem append_dash_inj {a x b y : List Char} (hx : '-' ∉ x) (hy : '-' ∉ y)
    (h : a ++ '-' :: x = b ++ '-' :: y) : a = b ∧ x = y := by
  induction a generalizing b with
  | nil =>
    cases b with
    | nil =>
      simp only [List.nil_append] at h
      injection h with h1 h2
      exact ⟨rfl, h2⟩
    | cons c bt =>
      simp only [List.nil_append, List.cons_append] at h
      injection h with h1 h2
      exfalso
      apply hx
      rw [h2]
      exact List.mem_append_right _ (List.mem_cons_self _ _)
  | cons c at2 ih =>
    cases b with
    | nil =>
      simp only [List.cons_append, List.nil_append] at h
      injection h with h1 h2
      exfalso
      apply hy
      rw [← h2]
      exact List.mem_append_right _ (List.mem_cons_self _ _)
    | cons c2 bt =>
      simp only [List.cons_append] at h
      injection h with h1 h2
      rcases ih h2 with ⟨hab, hxy⟩
      exact ⟨by rw [h1, hab], hxy⟩

theorem statusKey_inj {k1 s1 k2 s2 : String} (h1 : dashFree s1) (h2 : dashFree s2)
    (h : k1 ++ "-" ++ s1 = k2 ++ "-" ++ s2) : k1 = k2 ∧ s1 = s2 := by
  have hdash : ("-" : String).data = ['-'] := rfl
  have hd : k1.data ++ '-' :: s1.data = k2.data ++ '-' :: s2.data := by
    have hc := congrArg String.data h
    simpa [String.data_append, hdash] using hc
  rcases append_dash_inj h1 h2 hd with ⟨ha, hb⟩
  constructor
  · cases k1
    cases k2
    exact congrArg String.mk ha
  · cases s1
    cases s2
    exact congrArg String.mk hb

/-- All statuses carried by the operation's payload are dash-free. -/
def statusDashFreeOp : Op → Prop
  | Op.webhook _ (some p) => ∀ rs, p.results = some rs → ∀ x ∈ rs, dashFree x.status
  | _ => True

theorem foldl_serase_mem (f : String → String) :
    ∀ (l : List String) (pr : List String) (q : String),
      q ∈ l.foldl (fun pr2 st => serase pr2 (f st)) pr → q ∈ pr := by
  intro l
  induction l with
  | nil =>
    intro pr q h
    exact h
  | cons b t ih =>
    intro pr q h
    exact mem_of_mem_serase (ih (serase pr (f b)) q h)

theorem deleteStep_processed_mem (r : String)
    (acc : List (String × StoredResult) × List String × Nat) (tc q : String)
    (h : q ∈ (deleteStep r acc tc).2.1) : q ∈ acc.2.1 := by
  simp only [deleteStep] at h
  exact foldl_serase_mem _ standardStatuses acc.2.1 q h

theorem delete_fold_processed_mem (r : String) :
    ∀ (l : List String) (init : List (String × StoredResult) × List String × Nat)
      (q : String), q ∈ (l.foldl (deleteStep r) init).2.1 → q ∈ init.2.1 := by
  intro l
  induction l with
  | nil =>
    intro init q h
    exact h
  | cons b t ih =>
    intro init q h
    exact deleteStep_processed_mem r init b q (ih (deleteStep r init b) q h)

theorem deleteRequestResults_processed_mem (r : String) (s : ServerState) (q : String)
    (h : q ∈ (deleteRequestResults r s).1.processedWebhooks) :
    q ∈ s.processedWebhooks := by
  unfold deleteRequestResults at h
  cases he : alookup s.requestExecutions r with
  | none =>
    rw [he] at h
    exact h
  | some execution =>
    rw [he] at h
    exact delete_fold_processed_mem r execution.testCaseIds _ q h

theorem deleteRequestResults_exec (r : String) (s : ServerState) :
    (deleteRequestResults r s).1.requestExecutions = aerase s.requestExecutions r ∨
    (deleteRequestResults r s).1.requestExecutions = s.requestExecutions := by
  unfold deleteRequestResults
  cases he : alookup s.requestExecutions r with
  | none => exact Or.inr rfl
  | some execution => exact Or.inl rfl

theorem applyOp_webhook_invalid (env : Option Nat) (s : ServerState) (now : Nat)
    (pl : Option WebhookPayload) (hval : (validateWebhookPayload pl).1 = false) :
    applyOp env s (Op.webhook now pl) = s := by
  unfold applyOp processWebhookData
  simp only [hval, Bool.false_eq_true, if_false]

theorem applyOp_webhook_valid (env : Option Nat) (s : ServerState) (now : Nat)
    (p : WebhookPayload) (tc : IncomingResult) (rest : List IncomingResult)
    (hval : (validateWebhookPayload (some p)).1 = true)
    (hres : p.results = some (tc :: rest)) :
    applyOp env s (Op.webhook now (some p)) =
      (processValidated env now p.requestId tc s).1 := by
  show (match processWebhookData env now (some p) s with
    | Except.error _ => s
    | Except.ok (s2, _, _) => s2) = (processValidated env now p.requestId tc s).1
  rw [processWebhookData_valid_eq env now p tc rest s hval hres]

theorem getTestCaseResult_frame (now : Nat) (r tcid : String) (s : ServerState) :
    (getTestCaseResult now r tcid s).1.processedWebhooks = s.processedWebhooks ∧
    (getTestCaseResult now r tcid s).1.requestExecutions = s.requestExecutions := by
  refine ⟨?_, ?_⟩
  · simp only [getTestCaseResult]
    split
    · rfl
    · split
      · rfl
      · rfl
  · simp only [getTestCaseResult]
    split
    · rfl
    · split
      · rfl
      · rfl

theorem getRequestResults_frame (now : Nat) (r : String) (s : ServerState) :
    (getRequestResults now r s).1.processedWebhooks = s.processedWebhooks ∧
    (getRequestResults now r s).1.requestExecutions = s.requestExecutions := by
  refine ⟨?_, ?_⟩
  · simp only [getRequestResults]
    split
    · rfl
    · split
      · rfl
      · rfl
  · simp only [getRequestResults]
    split
    · rfl
    · split
      · rfl
      · rfl

theorem processValidated_dup_state (env : Option Nat) (now : Nat) (r : String)
    (tc : IncomingResult) (s : ServerState)
    (hd : computeDuplicate s (r ++ "-" ++ tc.id ++ "-" ++ tc.status)
      (computeEnhanced s (r ++ "-" ++ tc.id) tc) = true) :
    (processValidated env now r tc s).1 =
      { s with requestExecutions := trackExecution now r tc.id s.requestExecutions } := by
  simp only [processValidated]
  rw [if_pos hd]

theorem processValidated_store_state (env : Option Nat) (now : Nat) (r : String)
    (tc : IncomingResult) (s : ServerState)
    (hd : computeDuplicate s (r ++ "-" ++ tc.id ++ "-" ++ tc.status)
      (computeEnhanced s (r ++ "-" ++ tc.id) tc) = false) :
    (processValidated env now r tc s).1 =
      { testCaseResults := aset s.testCaseResults (r ++ "-" ++ tc.id)
          { requestId := r, testCaseId := tc.id, testCase := tc, receivedAt := now,
            compositeKey := r ++ "-" ++ tc.id, ttl := now + effectiveTtl env },
        processedWebhooks := if computeEnhanced s (r ++ "-" ++ tc.id) tc = true
          then s.processedWebhooks
          else sinsert s.processedWebhooks (r ++ "-" ++ tc.id ++ "-" ++ tc.status),
        requestExecutions := trackExecution now r tc.id s.requestExecutions } := by
  simp only [processValidated]
  rw [if_neg (by simp [hd])]

theorem computeDuplicate_mem (s : ServerState) (sk : String) (enh : Bool)
    (hd : computeDuplicate s sk enh = true) : sk ∈ s.processedWebhooks := by
  unfold computeDuplicate at hd
  by_cases hm : sk ∈ s.processedWebhooks
  · exact hm
  · rw [decide_eq_false hm] at hd
    simp at hd

/-- Carrying the trace invariant over a step that leaves the processed set
and the Execution Registry untouched. -/
theorem c6_frame_step (env : Option Nat) (ops : List Op) (op : Op)
    (hp : (runOps env (ops ++ [op])).processedWebhooks =
      (runOps env ops).processedWebhooks)
    (hx : (runOps env (ops ++ [op])).requestExecutions =
      (runOps env ops).requestExecutions)
    (ihN : ((runOps env ops).requestExecutions.map Prod.fst).Nodup)
    (ihP : ∀ q ∈ (runOps env ops).processedWebhooks,
      ∃ k st, q = k ++ "-" ++ st ∧ dashFree st ∧ everStored env ops k)
    (ihE : ∀ r e, alookup (runOps env ops).requestExecutions r = some e →
      ∀ tc ∈ e.testCaseIds, everStored env ops (r ++ "-" ++ tc)) :
    ((runOps env (ops ++ [op])).requestExecutions.map Prod.fst).Nodup ∧
    (∀ q ∈ (runOps env (ops ++ [op])).processedWebhooks,
      ∃ k st, q = k ++ "-" ++ st ∧ dashFree st ∧ everStored env (ops ++ [op]) k) ∧
    (∀ r e, alookup (runOps env (ops ++ [op])).requestExecutions r = some e →
      ∀ tc ∈ e.testCaseIds, everStored env (ops ++ [op]) (r ++ "-" ++ tc)) := by
  refine ⟨by rw [hx]; exact ihN, ?_, ?_⟩
  · intro q hq
    rw [hp] at hq
    obtain ⟨k, st, h1, h2, h3⟩ := ihP q hq
    exact ⟨k, st, h1, h2, everStored_mono env ops op k h3⟩
  · intro r e he tc htc
    rw [hx] at he
    exact everStored_mono env ops op _ (ihE r e he tc htc)

/-- The trace invariant: with all statuses dash-free, execution-registry
keys stay duplicate-free, every processed marker decomposes as a status key
whose composite key was stored at some trace prefix, and every test-case id
registered under an execution had its composite key stored at some trace
prefix. -/
theorem c6_invariant (env : Option Nat) (ops : List Op) :
    (∀ op ∈ ops, statusDashFreeOp op) →
    ((runOps env ops).requestExecutions.map Prod.fst).Nodup ∧
    (∀ q ∈ (runOps env ops).processedWebhooks,
      ∃ k st, q = k ++ "-" ++ st ∧ dashFree st ∧ everStored env ops k) ∧
    (∀ r e, alookup (runOps env ops).requestExecutions r = some e →
      ∀ tc ∈ e.testCaseIds, everStored env ops (r ++ "-" ++ tc)) := by
  induction ops using List.reverseRecOn with
  | nil =>
    intro _
    refine ⟨by simp [runOps, initialState], ?_, ?_⟩
    · intro q hq
      simp [runOps, initialState] at hq
    · intro r e he
      simp [runOps, initialState, alookup] at he
  | append_singleton ops op ih =>
    intro hdf
    obtain ⟨ihN, ihP, ihE⟩ := ih (fun o ho => hdf o (List.mem_append_left _ ho))
    have hdfop : statusDashFreeOp op :=
      hdf op (List.mem_append_right _ (List.mem_cons_self _ _))
    cases op with
    | readSingle now r tcid =>
      have hs : runOps env (ops ++ [Op.readSingle now r tcid]) =
          (getTestCaseResult now r tcid (runOps env ops)).1 := by
        rw [runOps_append_one]
        rfl
      exact c6_frame_step env ops _
        (by rw [hs]; exact (getTestCaseResult_frame now r tcid _).1)
        (by rw [hs]; exact (getTestCaseResult_frame now r tcid _).2) ihN ihP ihE
    | readList now r =>
      have hs : runOps env (ops ++ [Op.readList now r]) =
          (getRequestResults now r (runOps env ops)).1 := by
        rw [runOps_append_one]
        rfl
      exact c6_frame_step env ops _
        (by rw [hs]; exact (getRequestResults_frame now r _).1)
        (by rw [hs]; exact (getRequestResults_frame now r _).2) ihN ihP ihE
    | clearRequest r =>
      have hs : runOps env (ops ++ [Op.clearRequest r]) =
          (deleteRequestResults r (runOps env ops)).1 := by
        rw [runOps_append_one]
        rfl
      refine ⟨?_, ?_, ?_⟩
      · rw [hs]
        rcases deleteRequestResults_exec r (runOps env ops) with h | h
        · rw [h]
          exact map_fst_aerase_nodup _ _ ihN
        · rw [h]
          exact ihN
      · intro q hq
        rw [hs] at hq
        obtain ⟨k, st, h1, h2, h3⟩ :=
          ihP q (deleteRequestResults_processed_mem r (runOps env ops) q hq)
        exact ⟨k, st, h1, h2, everStored_mono env ops _ k h3⟩
      · intro r2 e he tc htc
        rw [hs] at he
        rcases deleteRequestResults_exec r (runOps env ops) with h | h
        · rw [h] at he
          by_cases hr : r2 = r
          · subst hr
            rw [alookup_aerase_self _ _ ihN] at he
            exact absurd he (by simp)
          · rw [alookup_aerase_ne _ _ _ hr] at he
            exact everStored_mono env ops _ _ (ihE r2 e he tc htc)
        · rw [h] at he
          exact everStored_mono env ops _ _ (ihE r2 e he tc htc)
    | webhook now payload =>
      cases payload with
      | none =>
        have hs : runOps env (ops ++ [Op.webhook now none]) = runOps env ops := by
          rw [runOps_append_one]
          exact applyOp_webhook_invalid env _ now none (by decide)
        exact c6_frame_step env ops _ (by rw [hs]) (by rw [hs]) ihN ihP ihE
      | some p =>
        by_cases hval : (validateWebhookPayload (some p)).1 = true
        · obtain ⟨hreq, hts, tc, hres, hid⟩ := (validator_valid_iff p).mp hval
          have hs : runOps env (ops ++ [Op.webhook now (some p)]) =
              (processValidated env now p.requestId tc (runOps env ops)).1 := by
            rw [runOps_append_one]
            exact applyOp_webhook_valid env _ now p tc [] hval hres
          have hdfst : dashFree tc.status := hdfop [tc] hres tc (List.mem_cons_self _ _)
          have hexec : (runOps env (ops ++ [Op.webhook now (some p)])).requestExecutions =
              trackExecution now p.requestId tc.id (runOps env ops).requestExecutions := by
            rw [hs, processValidated_exec]
          have hstorecur : computeDuplicate (runOps env ops)
                (p.requestId ++ "-" ++ tc.id ++ "-" ++ tc.status)
                (computeEnhanced (runOps env ops) (p.requestId ++ "-" ++ tc.id) tc) =
                false →
              everStored env (ops ++ [Op.webhook now (some p)])
                (p.requestId ++ "-" ++ tc.id) := by
            intro hd2
            apply everStored_of_current
            rw [hs, processValidated_store_state env now p.requestId tc _ hd2]
            unfold hasStored
            show (alookup (aset (runOps env ops).testCaseResults
                (p.requestId ++ "-" ++ tc.id) _) (p.requestId ++ "-" ++ tc.id)).isSome = true
            rw [alookup_aset_self]
            rfl
          refine ⟨?_, ?_, ?_⟩
          · rw [hexec]
            exact trackExecution_nodup now _ _ _ ihN
          · intro q hq
            by_cases hd : computeDuplicate (runOps env ops)
                (p.requestId ++ "-" ++ tc.id ++ "-" ++ tc.status)
                (computeEnhanced (runOps env ops) (p.requestId ++ "-" ++ tc.id) tc) = true
            · rw [hs, processValidated_dup_state env now p.requestId tc _ hd] at hq
              obtain ⟨k, st, h1, h2, h3⟩ := ihP q hq
              exact ⟨k, st, h1, h2, everStored_mono env ops _ k h3⟩
            · have hd2 : computeDuplicate (runOps env ops)
                  (p.requestId ++ "-" ++ tc.id ++ "-" ++ tc.status)
                  (computeEnhanced (runOps env ops) (p.requestId ++ "-" ++ tc.id) tc) =
                  false := by
                simpa using hd
              rw [hs, processValidated_store_state env now p.requestId tc _ hd2] at hq
              by_cases henh : computeEnhanced (runOps env ops)
                  (p.requestId ++ "-" ++ tc.id) tc = true
              · rw [if_pos henh] at hq
                obtain ⟨k, st, h1, h2, h3⟩ := ihP q hq
                exact ⟨k, st, h1, h2, everStored_mono env ops _ k h3⟩
              · rw [if_neg (by simp [henh])] at hq
                rcases mem_sinsert_iff.mp hq with hq2 | hq2
                · obtain ⟨k, st, h1, h2, h3⟩ := ihP q hq2
                  exact ⟨k, st, h1, h2, everStored_mono env ops _ k h3⟩
                · exact ⟨p.requestId ++ "-" ++ tc.id, tc.status, hq2, hdfst,
                    hstorecur hd2⟩
          · intro r2 e he tc2 htc2
            rw [hexec] at he
            rcases trackExecution_member_cases now p.requestId tc.id r2 tc2 _ e he htc2
              with ⟨hr2, htc⟩ | ⟨e0, he0, hm0⟩
            · subst hr2
              subst htc
              by_cases hd : computeDuplicate (runOps env ops)
                  (p.requestId ++ "-" ++ tc.id ++ "-" ++ tc.status)
                  (computeEnhanced (runOps env ops) (p.requestId ++ "-" ++ tc.id) tc) = true
              · have hmem := computeDuplicate_mem _ _ _ hd
                obtain ⟨k, st, h1, h2, h3⟩ := ihP _ hmem
                rcases statusKey_inj hdfst h2 h1 with ⟨hk, -⟩
                rw [hk]
                exact everStored_mono env ops _ _ h3
              · exact hstorecur (by simpa using hd)
            · exact everStored_mono env ops _ _ (ihE r2 e0 he0 tc2 hm0)
        · have hval2 : (validateWebhookPayload (some p)).1 = false := by
            simpa using hval
          have hs : runOps env (ops ++ [Op.webhook now (some p)]) = runOps env ops := by
            rw [runOps_append_one]
            exact applyOp_webhook_invalid env _ now (some p) hval2
          exact c6_frame_step env ops _ (by rw [hs]) (by rw [hs]) ihN ihP ihE

/-- **C6 counterexample**: after the colliding deliveries `(a, b, c-Passed)`
and `(a, b-c, Passed)`, the Execution Registry set of `a` contains `b-c`,
yet no entry was ever stored under the composite key `a-b-c` at any point of
the trace: the second delivery was judged a duplicate through the shared
status key `a-b-c-Passed` and never stored. -/
theorem claim6_counterexample :
    (alookup (runOps none collisionOps).requestExecutions "a").map
      (fun e => decide ("b-c" ∈ e.testCaseIds)) = some true ∧
    ¬ everStored none collisionOps ("a" ++ "-" ++ "b-c") :=
  ⟨by decide, collision_never_stored⟩

/-- **C6** (amended): provided every delivery's status is dash-free (as the
four standard statuses are), in every state reachable by ingestion, read
and delete operations, every test-case id present in an Execution Registry
set has, or once had at some prefix of the trace, a corresponding entry in
the Result Store under its composite key.  With dashed statuses the
status-key collision of the counterexample registers an id whose composite
key never had an entry.  (The per-test-case server defines no sweeper; the
sweeper of the `webhook-server.js` variant is treated under C5.) -/
theorem claim6_registry_ids_ever_stored
    (env : Option Nat) (ops : List Op)
    (hdf : ∀ op ∈ ops, statusDashFreeOp op)
    (r : String) (e : ExecutionEntry)
    (he : alookup (runOps env ops).requestExecutions r = some e) :
    ∀ tc ∈ e.testCaseIds, everStored env ops (r ++ "-" ++ tc) :=
  fun tc htc => (c6_invariant env ops hdf).2.2 r e he tc htc

/-- Witness for the amended C6 at a concrete one-delivery trace. -/
theorem claim6_witness :
    everStored none [Op.webhook 0 (some (mkPayload "w" "t" "Passed" none))]
      ("w" ++ "-" ++ "t") :=
  claim6_registry_ids_ever_stored none
    [Op.webhook 0 (some (mkPayload "w" "t" "Passed" none))]
    (by
      intro op hop
      have hop2 : op = Op.webhook 0 (some (mkPayload "w" "t" "Passed" none)) := by
        simpa using hop
      subst hop2
      intro rs hrs x hx
      have hrs2 : some [mkResult "t" "Passed" none] = some rs := hrs
      injection hrs2 with hrs3
      subst hrs3
      have hx2 : x = mkResult "t" "Passed" none := by simpa using hx
      subst hx2
      decide)
    "w" ⟨["t"], 0⟩ (by decide) "t" (by decide)

end QualityTracker
